import Mathlib

/-!
Verification of the potext message-catalog engine against its design
specification.  The definitions below are shallow embeddings of the C++
sources under `library/src/po` (pluralforms.cpp, dictionary.cpp,
language.cpp, poparser.cpp, moparser.cpp, extractor.cpp); theorems at the
end of the file settle the specification claims.

Conventions used throughout:

* C++ `int` is embedded as `Int`; the C++ `%` operator truncates toward
  zero, which is `Int.tmod`.
* C++ `unsigned` / `std::size_t` values appearing in the claims are
  embedded as `Nat`; where 32-bit wrap-around matters the reduction
  `% 4294967296` is written explicitly.
* Fallible or undefined-behavior paths are embedded with `Option`.
* Logging side effects are modelled, where a claim mentions them, as an
  extra boolean (or counter) in the result of the embedded function.
-/

namespace Potext

/-! ## Plural-forms rule engine (pluralforms.cpp)

Each selector function below embeds one static C++ function from
pluralforms.cpp.  The C++ bodies are conditional expressions over `int n`;
`%` is truncated modulo (`Int.tmod`).  Several of the C++ functions lack a
`return` keyword: their body is a discarded expression statement and the
function falls off its end, which is undefined behavior in C++.  Those
functions are marked "no return statement" in their doc comments; we embed
the value of the evaluated expression, which is the evident intent.
-/

/-- Embeds `plural1`: no plural forms, always index 0. -/
def plural1 (_ : Int) : Nat :=
  0

/-- Embeds `plural2_1`: `n != 1 ? 1 : 0`. -/
def plural2_1 (n : Int) : Nat :=
  if n ≠ 1 then 1 else 0

/-- Embeds `plural2_2`: `n > 1 ? 1 : 0`. -/
def plural2_2 (n : Int) : Nat :=
  if n > 1 then 1 else 0

/-- Embeds `plural2_mk`: `n == 1 || n % 10 == 1 ? 0 : 1`. -/
def plural2_mk (n : Int) : Nat :=
  if n = 1 ∨ Int.tmod n 10 = 1 then 0 else 1

/-- Embeds `plural2_mk_2`: `(n % 10 == 1 && n % 100 != 11) ? 0 : 1`. -/
def plural2_mk_2 (n : Int) : Nat :=
  if Int.tmod n 10 = 1 ∧ Int.tmod n 100 ≠ 11 then 0 else 1

/-- Embeds `plural3_es` (no return statement in the C++ source):
`n == 1 ? 0 : n != 0 && n % 1000000 == 0 ? 1 : 2`. -/
def plural3_es (n : Int) : Nat :=
  if n = 1 then 0 else if n ≠ 0 ∧ Int.tmod n 1000000 = 0 then 1 else 2

/-- Embeds `plural3_lv` (no return statement in the C++ source):
`n % 10 == 1 && n % 100 != 11 ? 0 : n != 0 ? 1 : 2`. -/
def plural3_lv (n : Int) : Nat :=
  if Int.tmod n 10 = 1 ∧ Int.tmod n 100 ≠ 11 then 0
  else if n ≠ 0 then 1 else 2

/-- Embeds `plural3_ga`: `n == 1 ? 0 : n == 2 ? 1 : 2`. -/
def plural3_ga (n : Int) : Nat :=
  if n = 1 then 0 else if n = 2 then 1 else 2

/-- Embeds `plural3_lt` (no return statement in the C++ source). -/
def plural3_lt (n : Int) : Nat :=
  if Int.tmod n 10 = 1 ∧ Int.tmod n 100 ≠ 11 then 0
  else if Int.tmod n 10 ≥ 2 ∧ (Int.tmod n 100 < 10 ∨ Int.tmod n 100 ≥ 20) then 1
  else 2

/-- Embeds `plural3_1` (no return statement in the C++ source). -/
def plural3_1 (n : Int) : Nat :=
  if Int.tmod n 10 = 1 ∧ Int.tmod n 100 ≠ 11 then 0
  else if Int.tmod n 10 ≥ 2 ∧ Int.tmod n 10 ≤ 4 ∧
      (Int.tmod n 100 < 10 ∨ Int.tmod n 100 ≥ 20) then 1
  else 2

/-- Embeds `plural3_sk`: `n == 1 ? 0 : (n >= 2 && n <= 4) ? 1 : 2`. -/
def plural3_sk (n : Int) : Nat :=
  if n = 1 then 0 else if n ≥ 2 ∧ n ≤ 4 then 1 else 2

/-- Embeds `plural3_pl` (no return statement in the C++ source). -/
def plural3_pl (n : Int) : Nat :=
  if n = 1 then 0
  else if Int.tmod n 10 ≥ 2 ∧ Int.tmod n 10 ≤ 4 ∧
      (Int.tmod n 100 < 10 ∨ Int.tmod n 100 ≥ 20) then 1
  else 2

/-- Embeds `plural3_ro` (no return statement in the C++ source). -/
def plural3_ro (n : Int) : Nat :=
  if n = 1 then 0
  else if Int.tmod n 100 > 19 ∨ (Int.tmod n 100 = 0 ∧ n ≠ 0) then 2
  else 1

/-- Embeds `plural3_sl` (no return statement in the C++ source). -/
def plural3_sl (n : Int) : Nat :=
  if Int.tmod n 100 = 1 then 0
  else if Int.tmod n 100 = 2 then 1
  else if Int.tmod n 100 = 3 ∨ Int.tmod n 100 = 4 then 2
  else 3

/-- Embeds `plural4_be` (no return statement in the C++ source). -/
def plural4_be (n : Int) : Nat :=
  if Int.tmod n 10 = 1 ∧ Int.tmod n 100 ≠ 11 then 0
  else if Int.tmod n 10 ≥ 2 ∧ Int.tmod n 10 ≤ 4 ∧
      (Int.tmod n 100 < 12 ∨ Int.tmod n 100 > 14) then 1
  else if Int.tmod n 10 = 0 ∨ (Int.tmod n 10 ≥ 5 ∧ Int.tmod n 10 ≤ 9) ∨
      (Int.tmod n 100 ≥ 11 ∧ Int.tmod n 100 ≤ 14) then 2
  else 3

/-- Embeds `plural4_cs` (no return statement in the C++ source). -/
def plural4_cs (n : Int) : Nat :=
  if n = 1 ∧ Int.tmod n 1 = 0 then 0
  else if n ≥ 2 ∧ n ≤ 4 ∧ Int.tmod n 1 = 0 then 1
  else if Int.tmod n 1 ≠ 0 then 2
  else 3

/-- Embeds `plural4_cy` (no return statement in the C++ source). -/
def plural4_cy (n : Int) : Nat :=
  if n = 1 then 0
  else if n = 2 then 1
  else if n ≠ 8 ∧ n ≠ 11 then 2
  else 3

/-- Embeds `plural4_gd` (no return statement in the C++ source). -/
def plural4_gd (n : Int) : Nat :=
  if n = 1 ∨ n = 11 then 0
  else if n = 2 ∨ n = 12 then 1
  else if n > 2 ∧ n < 20 then 2
  else 3

/-- Embeds `plural4_he` (no return statement in the C++ source). -/
def plural4_he (n : Int) : Nat :=
  if n = 1 ∧ Int.tmod n 1 = 0 then 0
  else if n = 2 ∧ Int.tmod n 1 = 0 then 1
  else if Int.tmod n 10 = 0 ∧ Int.tmod n 1 = 0 ∧ n > 10 then 2
  else 3

/-- Embeds `plural4_lt` (no return statement in the C++ source). -/
def plural4_lt (n : Int) : Nat :=
  if Int.tmod n 10 = 1 ∧ (Int.tmod n 100 > 19 ∨ Int.tmod n 100 < 11) then 0
  else if (Int.tmod n 10 ≥ 2 ∧ Int.tmod n 10 ≤ 9) ∧
      (Int.tmod n 100 > 19 ∨ Int.tmod n 100 < 11) then 1
  else if Int.tmod n 1 ≠ 0 then 2
  else 3

/-- Embeds `plural4_pl` (no return statement in the C++ source).  The
second condition reproduces the C++ operator precedence: `&&` binds
tighter than `||`. -/
def plural4_pl (n : Int) : Nat :=
  if n = 1 then 0
  else if (Int.tmod n 10 ≥ 2 ∧ Int.tmod n 10 ≤ 4) ∧
      (Int.tmod n 100 < 12 ∨ Int.tmod n 100 > 14) then 1
  else if (n ≠ 1 ∧ (Int.tmod n 10 ≥ 0 ∧ Int.tmod n 10 ≤ 1)) ∨
      (Int.tmod n 10 ≥ 5 ∧ Int.tmod n 10 ≤ 9) ∨
      (Int.tmod n 100 ≥ 12 ∧ Int.tmod n 100 ≤ 14) then 2
  else 3

/-- Embeds `plural4_sk` (no return statement in the C++ source). -/
def plural4_sk (n : Int) : Nat :=
  if Int.tmod n 1 = 0 ∧ n = 1 then 0
  else if Int.tmod n 1 = 0 ∧ n ≥ 2 ∧ n ≤ 4 then 1
  else if Int.tmod n 1 ≠ 0 then 2
  else 3

/-- Embeds `plural4_uk` (no return statement in the C++ source). -/
def plural4_uk (n : Int) : Nat :=
  if Int.tmod n 1 = 0 ∧ Int.tmod n 10 = 1 ∧ Int.tmod n 100 ≠ 11 then 0
  else if Int.tmod n 1 = 0 ∧ Int.tmod n 10 ≥ 2 ∧ Int.tmod n 10 ≤ 4 ∧
      (Int.tmod n 100 < 12 ∨ Int.tmod n 100 > 14) then 1
  else if Int.tmod n 1 = 0 ∧
      (Int.tmod n 10 = 0 ∨ (Int.tmod n 10 ≥ 5 ∧ Int.tmod n 10 ≤ 9) ∨
        (Int.tmod n 100 ≥ 11 ∧ Int.tmod n 100 ≤ 14)) then 2
  else 3

/-- Embeds `plural5_ga` (no return statement in the C++ source). -/
def plural5_ga (n : Int) : Nat :=
  if n = 1 then 0
  else if n = 2 then 1
  else if n < 7 then 2
  else if n < 11 then 3
  else 4

/-- Embeds `plural6_ar` (no return statement in the C++ source). -/
def plural6_ar (n : Int) : Nat :=
  if n = 0 then 0
  else if n = 1 then 1
  else if n = 2 then 2
  else if Int.tmod n 100 ≥ 3 ∧ Int.tmod n 100 ≤ 10 then 3
  else if Int.tmod n 100 ≥ 11 then 4
  else 5

/-- Embeds the `po::pluralforms` class: a form count `m_nplural` and an
optional selector function `mf_plural` (`none` embeds an empty
`std::function`, the state produced by the default constructor). -/
structure pluralforms where
  m_nplural : Nat
  mf_plural : Option (Int → Nat)

namespace pluralforms

/-- Embeds the default constructor `pluralforms()`: zero count, empty
selector function. -/
def null : pluralforms :=
  ⟨0, none⟩

/-- Embeds `get_plural`: `mf_plural ? mf_plural(n) : 0`. -/
def get_plural (pf : pluralforms) (n : Int) : Nat :=
  match pf.mf_plural with
  | some f => f n
  | none => 0

/-- Embeds `operator bool`: `mf_plural != nullptr`. -/
def toBool (pf : pluralforms) : Bool :=
  pf.mf_plural.isSome

end pluralforms

/-- Embeds the static table `s_plural_forms` from
`pluralforms::from_string`, keyed by the exact C++ string literals
(`PF` = `"nplurals="`, `PE` = `";plural="`), oddities included: the
`plural3_es` and `plural3_lv` entries register a form count of 2 although
their keys say `nplurals=3`, the `plural3_lv` key has a stray `)`,
the `plural4_pl` key has a stray `:` after `&&`, and the last two keys
lack the trailing semicolon. -/
def pluralFormsMap : List (String × pluralforms) :=
  [ ("nplurals=1;plural=0;", ⟨1, some plural1⟩),
    ("nplurals=2;plural=(n!=1);", ⟨2, some plural2_1⟩),
    ("nplurals=2;plural=n!=1;", ⟨2, some plural2_1⟩),
    ("nplurals=2;plural=(n>1);", ⟨2, some plural2_2⟩),
    ("nplurals=2;plural=n==1||n%10==1?0:1;", ⟨2, some plural2_mk⟩),
    ("nplurals=2;plural=(n%10==1&&n%100!=11)?0:1;", ⟨2, some plural2_mk_2⟩),
    ("nplurals=3;plural=n==1?0:n!=0&&n%1000000==0?1:2;", ⟨2, some plural3_es⟩),
    ("nplurals=3;plural=n%10==1&&n%100!=11?0:n!=0?1:2);", ⟨2, some plural3_lv⟩),
    ("nplurals=3;plural=n==1?0:n==2?1:2;", ⟨3, some plural3_ga⟩),
    ("nplurals=3;plural=(n%10==1&&n%100!=11?0:n%10>=2&&(n%100<10||n%100>=20)?1:2);",
      ⟨3, some plural3_lt⟩),
    ("nplurals=3;plural=(n%10==1&&n%100!=11?0:n%10>=2&&n%10<=4&&(n%100<10||n%100>=20)?1:2);",
      ⟨3, some plural3_1⟩),
    ("nplurals=3;plural=(n==1)?0:(n>=2&&n<=4)?1:2;", ⟨3, some plural3_sk⟩),
    ("nplurals=3;plural=(n==1?0:n%10>=2&&n%10<=4&&(n%100<10||n%100>=20)?1:2);",
      ⟨3, some plural3_pl⟩),
    ("nplurals=3;plural=(n%100==1?0:n%100==2?1:n%100==3||n%100==4?2:3);",
      ⟨3, some plural3_sl⟩),
    ("nplurals=3;plural=(n==1?0:(((n%100>19)||((n%100==0)&&(n!=0)))?2:1));",
      ⟨3, some plural3_ro⟩),
    ("nplurals=4;plural=(n%1==0&&n==1?0:n%1==0&&n>=2&&n<=4?1:n%1!=0?2:3);",
      ⟨4, some plural4_sk⟩),
    ("nplurals=4;plural=(n==1&&n%1==0)?0:(n>=2&&n<=4&&n%1==0)?1:(n%1!=0)?2:3;",
      ⟨4, some plural4_cs⟩),
    ("nplurals=4;plural=(n%10==1&&n%100!=11?0:n%10>=2&&n%10<=4&&(n%100<12||n%100>14)?1:n%10==0||(n%10>=5&&n%10<=9)||(n%100>=11&&n%100<=14)?2:3);",
      ⟨4, some plural4_be⟩),
    ("nplurals=4;plural=(n==1||n==11)?0:(n==2||n==12)?1:(n>2&&n<20)?2:3;",
      ⟨4, some plural4_gd⟩),
    ("nplurals=4;plural=(n==1)?0:(n==2)?1:(n!=8&&n!=11)?2:3;", ⟨4, some plural4_cy⟩),
    ("nplurals=4;plural=(n%10==1&&(n%100>19||n%100<11)?0:(n%10>=2&&n%10<=9)&&(n%100>19||n%100<11)?1:n%1!=0?2:3);",
      ⟨4, some plural4_lt⟩),
    ("nplurals=4;plural=(n%1==0&&n%10==1&&n%100!=11?0:n%1==0&&n%10>=2&&n%10<=4&&(n%100<12||n%100>14)?1:n%1==0&&(n%10==0||(n%10>=5&&n%10<=9)||(n%100>=11&&n%100<=14))?2:3);",
      ⟨4, some plural4_uk⟩),
    ("nplurals=4;plural=(n==1?0:(n%10>=2&&n%10<=4)&&(n%100<12||n%100>14)?1:n!=1&&(n%10>=0&&n%10<=1)||(n%10>=5&&n%10<=9)||(n%100>=12&&:n%100<=14)?2:3);",
      ⟨4, some plural4_pl⟩),
    ("nplurals=4;plural=(n==1&&n%1==0)?0:(n==2&&n%1==0)?1:(n%10==0&&n%1==0&&n>10)?2:3;",
      ⟨4, some plural4_he⟩),
    ("nplurals=5;plural=(n==1?0:n==2?1:n<7?2:n<11?3:4)", ⟨5, some plural5_ga⟩),
    ("nplurals=6;plural=n==0?0:n==1?1:n==2?2:n%100>=3&&n%100<=10?3:n%100>=11?4:5",
      ⟨6, some plural6_ar⟩) ]

/-- Characters for which `std::isspace` is true in the C locale. -/
def isCSpace (c : Char) : Bool :=
  c = ' ' ∨ c = '\t' ∨ c = '\n' ∨ c = '\x0b' ∨ c = '\x0c' ∨ c = '\r'

/-- Embeds the space-stripping loop of `pluralforms::from_string`. -/
def stripSpaces (s : String) : List Char :=
  s.data.filter (fun c => ! isCSpace c)

/-- Embeds the normalization step of `pluralforms::from_string`: strip
whitespace, then restore a trailing semicolon if the last character is
not `;`.  The C++ reads `spaceless_str.back()`, which is undefined
behavior when the stripped string is empty; that case is `none`. -/
def normalizeSpec (s : String) : Option (List Char) :=
  let sp := stripSpaces s
  match sp.getLast? with
  | none => none
  | some c => some (if c ≠ ';' then sp ++ [';'] else sp)

/-- Embeds the map lookup of `pluralforms::from_string` (exact key
equality, as with `std::map::find`). -/
def pluralFormsLookup (key : List Char) : Option pluralforms :=
  (pluralFormsMap.find? (fun p => p.1.data = key)).map Prod.snd

/-- Embeds `pluralforms::from_string`.  `none` embeds the undefined
behavior on an empty or all-whitespace argument (reading `back()` of an
empty `std::string`); otherwise the result is the table entry for the
normalized string, or the null `pluralforms` when the table has no such
key. -/
def from_string (str : String) : Option pluralforms :=
  match normalizeSpec str with
  | none => none
  | some key =>
    match pluralFormsLookup key with
    | some pf => some pf
    | none => some pluralforms.null

end Potext

namespace Potext

/-! ## Dictionary data store (dictionary.cpp)

`entries` embeds `std::map<std::string, entry>` as an association list
with unique keys; `entFind` embeds `find` (exact key equality) and
`entSet` embeds `operator[]`-style insertion/update.  `ctxtentries`
embeds `std::map<std::string, entries>` the same way.

Logging is modelled where the claims mention it: each `add` embedding
returns, besides the updated map, the C++ boolean result and a flag that
is true exactly when the collision warning was written.
-/

/-- Embeds `dictionary::entry`: the optional plural message id and the
ordered list of translation variants. -/
structure entry where
  msgid_plural : String
  phrase_list : List String
deriving DecidableEq, Repr

/-- Association-list embedding of `entries = std::map<std::string, entry>`. -/
abbrev entries := List (String × entry)

/-- Association-list embedding of
`ctxtentries = std::map<std::string, entries>`. -/
abbrev ctxtentries := List (String × entries)

/-- Embeds `entries::find`: exact key lookup. -/
def entFind (m : entries) (k : String) : Option entry :=
  (m.find? (fun p => p.1 = k)).map Prod.snd

/-- Embeds map insertion/update at key `k` (the effect of
`m_entries[msgid] = en`, and of writing through a reference obtained
from `operator[]`): replaces the binding if the key is present,
otherwise appends it. -/
def entSet (m : entries) (k : String) (v : entry) : entries :=
  if (m.find? (fun p => p.1 = k)).isSome then
    m.map (fun p => if p.1 = k then (k, v) else p)
  else
    m ++ [(k, v)]

/-- Embeds `ctxtentries::find`. -/
def ctxFind (m : ctxtentries) (k : String) : Option entries :=
  (m.find? (fun p => p.1 = k)).map Prod.snd

/-- Embeds `ctxtentries` insertion/update at key `k`. -/
def ctxSet (m : ctxtentries) (k : String) (v : entries) : ctxtentries :=
  if (m.find? (fun p => p.1 = k)).isSome then
    m.map (fun p => if p.1 = k then (k, v) else p)
  else
    m ++ [(k, v)]

/-- Embeds `dictionary::add(msgid, msgstr)` (flat index, single string).
Result: `(new flat index, C++ return value, collision warning logged)`.
A present key is a collision: the warning is logged and the map is left
unchanged. -/
def addSingle (m : entries) (msgid msgstr : String) : entries × Bool × Bool :=
  match entFind m msgid with
  | some _ => (m, false, true)
  | none => (entSet m msgid ⟨"", [msgstr]⟩, true, false)

/-- Embeds `dictionary::add(msgid, msgid_plural, msgstrs)` (flat index,
plural).  Same collision policy as `addSingle`. -/
def addPlural (m : entries) (msgid msgid_plural : String)
    (msgstrs : List String) : entries × Bool × Bool :=
  match entFind m msgid with
  | some _ => (m, false, true)
  | none => (entSet m msgid ⟨msgid_plural, msgstrs⟩, true, false)

/-- Embeds `dictionary::add(msgctxt, msgid, msgstr)` (context index,
single string).  `operator[]` default-constructs a missing entry; an
empty phrase list receives the string; a differing first phrase logs the
collision warning and is overwritten in place (`phrases[0] = msgstr`);
an equal first phrase changes nothing.  The C++ function always returns
true. -/
def addCtxtSingle (m : ctxtentries) (msgctxt msgid msgstr : String) :
    ctxtentries × Bool × Bool :=
  let cents := (ctxFind m msgctxt).getD []
  let ent := (entFind cents msgid).getD ⟨"", []⟩
  match ent.phrase_list with
  | [] =>
    (ctxSet m msgctxt (entSet cents msgid ⟨ent.msgid_plural, [msgstr]⟩),
      true, false)
  | p0 :: rest =>
    if p0 ≠ msgstr then
      (ctxSet m msgctxt (entSet cents msgid ⟨ent.msgid_plural, msgstr :: rest⟩),
        true, true)
    else
      (m, true, false)

/-- Embeds `dictionary::add(msgctxt, msgid, msgid_plural, msgstrs)`
(context index, plural).  An empty phrase list receives `msgid_plural`
and the whole list; a differing phrase list logs the collision warning
and is overwritten (`phrases = msgstrs`) while `ent.msgid_plural` keeps
its earlier value; an equal list changes nothing.  Always returns
true. -/
def addCtxtPlural (m : ctxtentries) (msgctxt msgid msgid_plural : String)
    (msgstrs : List String) : ctxtentries × Bool × Bool :=
  let cents := (ctxFind m msgctxt).getD []
  let ent := (entFind cents msgid).getD ⟨"", []⟩
  match ent.phrase_list with
  | [] =>
    (ctxSet m msgctxt (entSet cents msgid ⟨msgid_plural, msgstrs⟩),
      true, false)
  | p0 :: rest =>
    if p0 :: rest ≠ msgstrs then
      (ctxSet m msgctxt (entSet cents msgid ⟨ent.msgid_plural, msgstrs⟩),
        true, true)
    else
      (m, true, false)

/-- Embeds the `po::dictionary` lookup state: the flat index, the context
index, the plural selector, and the non-owning fallback reference
(`m_has_fallback`/`m_fallback`, kept in sync by `set_fallback`). -/
inductive dictionary where
  | mk (m_entries : entries) (m_ctxt_entries : ctxtentries)
      (m_plural_forms : pluralforms) (m_fallback : Option dictionary)

namespace dictionary

/-- Flat index of a dictionary. -/
def ents : dictionary → entries
  | .mk e _ _ _ => e

/-- Context index of a dictionary. -/
def ctxts : dictionary → ctxtentries
  | .mk _ c _ _ => c

/-- Plural selector of a dictionary. -/
def pf : dictionary → pluralforms
  | .mk _ _ p _ => p

/-- Fallback reference of a dictionary. -/
def fallback : dictionary → Option dictionary
  | .mk _ _ _ f => f

/-- Embeds `dictionary::translate(msgid)` together with the
`translate(ents, msgid)` overload it calls: an entry with a non-empty
phrase list yields `phrase_list[0]`; otherwise the fallback dictionary
is consulted when set, else `msgid` is returned unchanged. -/
def translate : dictionary → String → String
  | .mk ents _ _ fb, msgid =>
    match entFind ents msgid, fb with
    | some ⟨_, p0 :: _⟩, _ => p0
    | some ⟨_, []⟩, some f => translate f msgid
    | some ⟨_, []⟩, none => msgid
    | none, some f => translate f msgid
    | none, none => msgid

/-- Embeds the `dictionary::translate_plural(dict, msgid, msgid_plural, N)`
overload (the entry point forwards `m_entries` and uses
`m_plural_forms`).  Result: `(returned string, error logged)`.  The
boolean is true exactly when the out-of-range branch writes to
`logstream::error()`. -/
def translate_plural_in (pf : pluralforms) (dict : entries)
    (msgid msgid_plural : String) (N : Int) : String × Bool :=
  match entFind dict msgid with
  | some e =>
    let n : Nat := pf.get_plural N
    let sz := e.phrase_list.length
    if n ≥ sz then
      (msgid, true)
    else if e.phrase_list.getD n "" ≠ "" then
      (e.phrase_list.getD n "", false)
    else if N = 1 then
      (msgid, false)
    else
      (msgid_plural, false)
  | none =>
    if N = 1 then (msgid, false) else (msgid_plural, false)

/-- Embeds `dictionary::translate_plural(msgid, msgid_plural, N)`:
forwards to the overload on `m_entries`.  The fallback dictionary is
never consulted here. -/
def translate_plural (d : dictionary) (msgid msgid_plural : String)
    (N : Int) : String × Bool :=
  translate_plural_in d.pf d.ents msgid msgid_plural N

end dictionary

end Potext

namespace Potext

/-! ## Locale tags and the scored match (language.cpp)

`languagespec` embeds the static record type of languagespecs.hpp
(only the three fields used by `language::match` matter here);
`language` embeds the `po::language` wrapper, whose `m_language_spec`
pointer is null for the "null" tag and whose `spec()` accessor then
returns a default-constructed dummy with empty strings.
-/

/-- Embeds `languagespec` (the fields consulted by `language::match`). -/
structure languagespec where
  language : String
  country : String
  modifier : String
deriving DecidableEq, Repr

/-- Embeds `po::language`: an optional pointer to a `languagespec`. -/
structure language where
  m_language_spec : Option languagespec
deriving DecidableEq, Repr

namespace language

/-- Embeds `language::spec()`: the pointed-to record, or the static
default-constructed dummy (all fields empty) for the null tag. -/
def spec (l : language) : languagespec :=
  l.m_language_spec.getD ⟨"", "", ""⟩

/-- Embeds `language::get_language()`. -/
def get_language (l : language) : String :=
  l.spec.language

/-- Embeds `language::get_country()`. -/
def get_country (l : language) : String :=
  l.spec.country

/-- Embeds `language::get_modifier()`. -/
def get_modifier (l : language) : String :=
  l.spec.modifier

/-- Embeds the three-way country comparison of `language::match`:
0 exact, 1 one-side-empty wildcard, 2 mismatch. -/
def countryClass (lhs rhs : language) : Nat :=
  if lhs.get_country = rhs.get_country then 0
  else if lhs.get_country = "" ∨ rhs.get_country = "" then 1
  else 2

/-- Embeds the three-way modifier comparison of `language::match`. -/
def modifierClass (lhs rhs : language) : Nat :=
  if lhs.get_modifier = rhs.get_modifier then 0
  else if lhs.get_modifier = "" ∨ rhs.get_modifier = "" then 1
  else 2

/-- Embeds the static 3-by-3 score table `match_tbl` of
`language::match` (row: country class, column: modifier class). -/
def matchTbl : List (List Int) :=
  [[9, 8, 5], [7, 6, 3], [4, 2, 1]]

/-- Embeds `language::match` (named `languageMatch` because `match` is
reserved in Lean): 0 when the language codes differ, otherwise the table
entry selected by the country and modifier comparison classes. -/
def languageMatch (lhs rhs : language) : Int :=
  if lhs.get_language ≠ rhs.get_language then 0
  else
    ((matchTbl.getD (countryClass lhs rhs) []).getD (modifierClass lhs rhs) 0)

end language

end Potext

namespace Potext

/-! ## Text catalog parser (poparser.cpp)

The input stream is embedded as a list of lines, each line a list of
byte-characters (`std::getline` semantics: the newline is consumed, and
a failing read clears the current line and sets eof).  `line(i)` embeds
`std::string::operator[]`, which yields the NUL character at the
one-past-the-end position.

`error()` (pomoparserbase.cpp) writes to the error log and throws
`parser_error`; it is embedded as `Except.error` carrying the message
and the line number passed to `error()`.  `warning()` does not throw and
is embedded as a counter in the state.

Character-set conversion (`iconvert::convert`) returns its argument
unchanged while no conversion descriptor is open, which is the case
until a catalog header declares a charset differing from the target.
`iconvConvert` embeds the null-descriptor behavior; transcoding through
an open descriptor is the external collaborator of spec section 6 and is
modelled from the spec as pass-through.

Loops are written with an explicit fuel argument so that every
definition is structurally recursive and kernel-executable; each loop
consumes at least one input line (or one character position) per
iteration, and every call site passes a fuel value exceeding that bound,
so the fuel-exhaustion branches are unreachable.
-/

/-- Embeds `parser_error` together with the position argument of
`pomoparserbase::error(msg, pos)`. -/
structure parserError where
  msg : String
  line : Nat
deriving DecidableEq, Repr

/-- The dictionary object being populated by a parser: flat index,
context index and plural selector. -/
structure poDict where
  ents : entries
  ctxts : ctxtentries
  pf : pluralforms

/-- Embeds the poparser working state: remaining input lines, current
line, line number, eof flag, BIG5 mode, the `m_use_fuzzy` flag, the
dictionary under construction and the number of warnings written. -/
structure poState where
  lines : List (List Char)
  cur : List Char
  lineNo : Nat
  eof : Bool
  big5 : Bool
  useFuzzy : Bool
  dict : poDict
  warns : Nat

/-- Embeds `poparser::line(i)`: `m_current_line[i]`, the NUL character at
the end position. -/
def lineAt (st : poState) (i : Nat) : Char :=
  st.cur.getD i '\x00'

/-- Embeds `warning()`: writes a diagnostic, does not throw. -/
def warn (st : poState) : poState :=
  { st with warns := st.warns + 1 }

/-- Embeds `poparser::next_line()`: increments the line number; a
successful `std::getline` loads the next line, a failing one clears the
current line and sets eof. -/
def nextLine (st : poState) : Bool × poState :=
  match st.lines with
  | [] => (false, { st with lineNo := st.lineNo + 1, eof := true, cur := [] })
  | l :: rest =>
    (true, { st with lineNo := st.lineNo + 1, cur := l, lines := rest })

/-- Embeds `iconvert::convert` with no open conversion descriptor: the
text is returned unchanged.  Modelled from the spec: transcoding through
an open descriptor is the external charset-conversion collaborator of
spec section 6 (`convert(bytes) -> bytes`, degrading to pass-through on
failure), which byte-level claims do not exercise; it is modelled as the
same pass-through. -/
def iconvConvert (s : List Char) : List Char :=
  s

/-- Embeds the `switch` of `poparser::get_string_line`: the recognized
escape sequences and their replacement characters. -/
def escMap (c : Char) : Option Char :=
  if c = 'a' then some '\x07'
  else if c = 'b' then some '\x08'
  else if c = 'v' then some '\x0b'
  else if c = 'n' then some '\n'
  else if c = 't' then some '\t'
  else if c = 'r' then some '\r'
  else if c = '"' then some '"'
  else if c = '?' then some '?'
  else if c = '\'' then some '\''
  else if c = '\\' then some '\\'
  else none

/-- Embeds the scanning loop of `poparser::get_string_line`: starting at
position `i`, processes characters until the closing quote.  BIG5 lead
bytes consume their trail byte verbatim; a backslash is processed
through `escMap`, an unrecognized escape writes a warning and passes
`line(i-1)`, `line(i)` through followed by the unconverted character
`outc` (so the backslash and two copies of the character are emitted).
Returns the accumulated output, the state and the position of the
closing quote. -/
def gsLoop (fuel : Nat) (st : poState) (out : List Char) (i : Nat) :
    Except parserError (List Char × poState × Nat) :=
  match fuel with
  | 0 => .error ⟨"fuel exhausted", st.lineNo⟩
  | fuel + 1 =>
    if lineAt st i ≠ '"' then
      let c := lineAt st i
      if st.big5 ∧ c.toNat ≥ 0x81 ∧ c.toNat ≤ 0xfe then
        let i2 := i + 1
        if i2 ≥ st.cur.length then
          .error ⟨"Invalid Big5 encoding", st.lineNo⟩
        else
          gsLoop fuel st (out ++ [c, lineAt st i2]) (i2 + 1)
      else if i ≥ st.cur.length then
        .error ⟨"missing end-of-line quote", 0⟩
      else if c = '\\' then
        let i2 := i + 1
        if i2 ≥ st.cur.length then
          .error ⟨"missing/incomplete backslash code", st.lineNo⟩
        else
          let c2 := lineAt st i2
          match escMap c2 with
          | some outc => gsLoop fuel st (out ++ [outc]) (i2 + 1)
          | none =>
            gsLoop fuel (warn st) (out ++ [lineAt st (i2 - 1), c2, c2]) (i2 + 1)
      else
        gsLoop fuel st (out ++ [c]) (i + 1)
    else
      .ok (out, st, i)

/-- Embeds the trailing-garbage scan at the end of
`poparser::get_string_line`: one warning if anything after the closing
quote is not whitespace. -/
def trailingGarbage (st : poState) (i : Nat) : poState :=
  if (st.cur.drop (i + 1)).any (fun c => ! isCSpace c) then warn st else st

/-- Embeds `poparser::get_string_line(out, skip)`. -/
def getStringLine (st : poState) (out : List Char) (skip : Nat) :
    Except parserError (List Char × poState) :=
  if skip + 1 ≥ st.cur.length then
    .error ⟨"1. Unexpected end of line", st.lineNo⟩
  else if lineAt st skip ≠ '"' then
    .error ⟨"Expected start of string", st.lineNo⟩
  else
    match gsLoop (st.cur.length + 2) st out (skip + 1) with
    | .error e => .error e
    | .ok (out2, st2, i) => .ok (out2, trailingGarbage st2 i)

/-- Embeds the quote-searching loop of `poparser::get_string` (the
non-pedantic path): advance `skip` over whitespace until a quote;
anything else is an error. -/
def gsSkipLoop (fuel : Nat) (st : poState) (skip : Nat) :
    Except parserError Nat :=
  match fuel with
  | 0 => .error ⟨"fuel exhausted", st.lineNo⟩
  | fuel + 1 =>
    if skip ≥ st.cur.length then
      .error ⟨"4. Unexpected end of line", st.lineNo⟩
    else if lineAt st skip = '"' then
      .ok skip
    else if ! isCSpace (lineAt st skip) then
      .error ⟨"Tagged string must start with quote", st.lineNo⟩
    else
      gsSkipLoop fuel st (skip + 1)

/-- Scans a continuation line for the first non-space character;
`some i` when that character is a quote at index `i`, `none`
otherwise. -/
def contScan : List Char → Nat → Option Nat
  | [], _ => none
  | c :: rest, i =>
    if c = '"' then some i
    else if isCSpace c then contScan rest (i + 1)
    else none

/-- Embeds the continuation-line loop after the `next:` label in
`poparser::get_string`: keep reading lines whose first non-space
character is a quote, appending each quoted segment. -/
def gsContinuation (fuel : Nat) (st : poState) (out : List Char) :
    Except parserError (List Char × poState) :=
  match fuel with
  | 0 => .ok (out, st)
  | fuel + 1 =>
    let p := nextLine st
    if p.1 then
      match contScan p.2.cur 0 with
      | some i =>
        let st2 := if i = 1 then warn p.2 else p.2
        match getStringLine st2 out i with
        | .error e => .error e
        | .ok (out2, st3) => gsContinuation fuel st3 out2
      | none => .ok (out, p.2)
    else
      .ok (out, p.2)

/-- Embeds `poparser::get_string(skip)`: reads the quoted string on the
current line (warning when keyword and string are not separated by
exactly one space) and then any continuation lines. -/
def getString (st : poState) (skip : Nat) :
    Except parserError (List Char × poState) :=
  if skip + 1 ≥ st.cur.length then
    .error ⟨"3. Unexpected end of line", st.lineNo⟩
  else
    let step1 : Except parserError (List Char × poState) :=
      if lineAt st skip = ' ' ∧ lineAt st (skip + 1) = '"' then
        getStringLine st [] (skip + 1)
      else
        let st1 := warn st
        match gsSkipLoop (st1.cur.length + 2) st1 skip with
        | .error e => .error e
        | .ok q => getStringLine st1 [] q
    match step1 with
    | .error e => .error e
    | .ok (out, st2) => gsContinuation (st2.lines.length + 1) st2 out

/-- Embeds `poparser::is_empty_line()`. -/
def isEmptyLine (st : poState) : Bool :=
  if st.cur.isEmpty then
    true
  else if lineAt st 0 = '#' then
    st.cur.length = 1 ∨ (st.cur.length ≥ 2 ∧ isCSpace (lineAt st 1))
  else
    st.cur.all isCSpace

/-- Embeds `poparser::prefix_match(prefixstr)`:
`line().compare(0, sz, prefixstr) == 0`. -/
def prefixMatchP (st : poState) (pre : List Char) : Bool :=
  st.cur.take pre.length = pre

/-- Embeds `line().find(pat, start) != npos`: some full occurrence of
`pat` beginning at an index of `l` not below `start`. -/
def containsFrom (l pat : List Char) (start : Nat) : Bool :=
  (List.range (l.length + 1)).any
    (fun i => start ≤ i ∧ (l.drop i).take pat.length = pat)

/-- Embeds `pomoparserbase::fix_message`: every backslash character is
replaced by a newline (the source replaces the one-character string
`"\\"` repeatedly). -/
def fix_message (msg : List Char) : List Char :=
  msg.map (fun ch => if ch = '\\' then '\n' else ch)

/-- Embeds `fix_po_header`: after every backslash insert `n"`, a newline
and an opening quote, then drop a trailing quote.  (`result.back()` on
an empty result is undefined behavior in the C++; the embedding leaves
an empty result unchanged, and no theorem exercises that path.) -/
def fixPoHeader (header : List Char) : List Char :=
  let r := header.flatMap
    (fun ch => if ch = '\\' then [ch, 'n', '"', '\n', '"'] else [ch])
  match r.getLast? with
  | some q => if q = '"' then r.dropLast else r
  | none => r

/-- Proxy for the C++ `pluralforms::operator!=` used by `parse_header`
to emit a mismatch warning: the source compares the function pointers,
whose identity the embedding cannot observe, so the comparison is
approximated by form count and selector presence.  It only influences
the warning counter on the header path, which no claim inspects. -/
def pluralformsNe (a b : pluralforms) : Bool :=
  a.m_nplural ≠ b.m_nplural ∨ a.mf_plural.isSome ≠ b.mf_plural.isSome

/-- Embeds the charset extraction of `poparser::parse_header`: the value
between `charset=` and the next `\n` of the header string. -/
def headerCharset (header : List Char) : List Char :=
  match (List.range (header.length + 1)).find?
      (fun i => (header.drop i).take 34 =
        "Content-Type: text/plain; charset=".data) with
  | some pos =>
    match (List.range (header.length + 1)).find?
        (fun j => pos + 1 ≤ j ∧ header.getD j ' ' = '=') with
    | some eq =>
      match (List.range (header.length + 1)).find?
          (fun j => eq + 1 ≤ j ∧ header.getD j ' ' = '\n') with
      | some nl => (header.drop (eq + 1)).take (nl - (eq + 1))
      | none => []
    | none => []
  | none => []

/-- Embeds the Plural-Forms extraction and registration of
`poparser::parse_header`, returning the updated state (warnings and the
dictionary plural selector). -/
def headerPlurals (st : poState) (header : List Char) : poState :=
  match (List.range (header.length + 1)).find?
      (fun i => (header.drop i).take 9 = "nplurals=".data) with
  | some pluralpos =>
    match (List.range (header.length + 1)).find?
        (fun j => pluralpos + 1 ≤ j ∧ header.getD j ' ' = '\n') with
    | some nl =>
      let plurals := (header.drop pluralpos).take (nl - pluralpos)
      match from_string (String.mk plurals) with
      | none => st
      | some pfv =>
        if ¬ pfv.toBool then warn st
        else if ¬ st.dict.pf.toBool then
          { st with dict := { st.dict with pf := pfv } }
        else if pluralformsNe st.dict.pf pfv then warn st
        else st
    | none => st
  | none => st

/-- Embeds `poparser::parse_header`: extract the charset (warning when
absent), register the plural forms, default a missing or placeholder
charset to UTF-8 (pedantic warning), set BIG5 mode, and open the
conversion path.  The final `set_charsets` call is the external
transcoding collaborator; modelled from the spec (section 6) as
succeeding, with failures only reported. -/
def parseHeader (st : poState) (header : List Char) : Bool × poState :=
  let cs := headerCharset header
  let st1 := if (List.range (header.length + 1)).find?
      (fun i => (header.drop i).take 34 =
        "Content-Type: text/plain; charset=".data) = none then warn st else st
  let st2 := headerPlurals st1 header
  let st3 :=
    if cs = [] ∨ cs = "CHARSET".data then warn st2
    else if cs = "BIG5".data then { st2 with big5 := true }
    else st2
  (true, st3)

/-- Embeds `poparser::get_msgstr`: the header entry (empty msgid) is
parsed for metadata and stored re-quoted; an empty translation returns
false; otherwise the entry is added to the flat or context index
(subject to the fuzzy filter). -/
def getMsgstr (st : poState) (fuzzy : Bool) (msgctxt msgid : List Char) :
    Except parserError (Bool × poState) :=
  match getString st 6 with
  | .error e => .error e
  | .ok (msgstr, st1) =>
    if msgid.isEmpty then
      let p := parseHeader st1 msgstr
      if p.1 then
        let hdr := fixPoHeader msgstr
        let r := addSingle p.2.dict.ents (String.mk msgid) (String.mk hdr)
        .ok (true, { p.2 with dict := { p.2.dict with ents := r.1 } })
      else
        .ok (false, p.2)
    else if msgstr.isEmpty then
      .ok (false, st1)
    else if st1.useFuzzy ∨ ¬ fuzzy then
      let msg0 := String.mk (fix_message msgid)
      let msg1 := String.mk (iconvConvert (fix_message msgstr))
      if msgctxt.isEmpty then
        let r := addSingle st1.dict.ents msg0 msg1
        .ok (true, { st1 with dict := { st1.dict with ents := r.1 } })
      else
        let ctxt := if msgctxt ≠ ['-'] then msgctxt else []
        let r := addCtxtSingle st1.dict.ctxts (String.mk ctxt) msg0 msg1
        .ok (true, { st1 with dict := { st1.dict with ctxts := r.1 } })
    else
      .ok (true, st1)

/-- Embeds the `msgstr[n]` update of `poparser::get_msgid_plural`:
`msglist.resize(number + 1)` when needed (new slots are empty strings),
then `msglist[number] = value`. -/
def msglistResizeSet (l : List String) (n : Nat) (v : String) : List String :=
  let l2 := if n ≥ l.length then l ++ List.replicate (n + 1 - l.length) "" else l
  l2.set n v

/-- Embeds the `next:` loop of `poparser::get_msgid_plural`: a blank
line ends the entry (an error if no `msgstr[n]` was seen); a
`msgstr[d]` line stores its converted string at index `d`; anything
else is an error. -/
def gmpLoop (fuel : Nat) (st : poState) (msglist : List String)
    (saw : Bool) : Except parserError (List String × Bool × poState) :=
  match fuel with
  | 0 => .error ⟨"fuel exhausted", st.lineNo⟩
  | fuel + 1 =>
    if isEmptyLine st then
      if msglist.isEmpty then
        .error ⟨"Expected msgstr[0 to 9]", st.lineNo⟩
      else
        .ok (msglist, saw, st)
    else if prefixMatchP st "msgstr[".data ∧ st.cur.length > 8 ∧
        (lineAt st 7).isDigit ∧ lineAt st 8 = ']' then
      let number := (lineAt st 7).toNat - '0'.toNat
      match getString st 9 with
      | .error e => .error e
      | .ok (msgstr, st1) =>
        let saw2 := saw ∨ ¬ msgstr.isEmpty
        gmpLoop fuel st1
          (msglistResizeSet msglist number (String.mk (iconvConvert msgstr)))
          saw2
    else
      .error ⟨"Expected msgstr[n] entry", st.lineNo⟩

/-- Embeds `poparser::get_msgid_plural`: reads `msgid_plural`, collects
the `msgstr[n]` block, and commits the plural entry (subject to the
fuzzy filter), warning when no plural selector is configured or the
variant count disagrees with it. -/
def getMsgidPlural (st : poState) (fuzzy : Bool) (msgctxt msgid : List Char) :
    Except parserError (Bool × poState) :=
  match getString st 12 with
  | .error e => .error e
  | .ok (msgid_plural, st1) =>
    match gmpLoop (st1.lines.length + 2) st1 [] false with
    | .error e => .error e
    | .ok (msglist, saw, st2) =>
      if saw then
        if st2.useFuzzy ∨ ¬ fuzzy then
          let st3 :=
            if ¬ st2.dict.pf.toBool then warn st2
            else if msglist.length ≠ st2.dict.pf.m_nplural then warn st2
            else st2
          let msg0 := String.mk (fix_message msgid)
          let msgplural := String.mk (fix_message msgid_plural)
          let msglist2 := msglist.map
            (fun m => String.mk (iconvConvert (fix_message m.data)))
          if msgctxt.isEmpty then
            let r := addPlural st3.dict.ents msg0 msgplural msglist2
            .ok (true, { st3 with dict := { st3.dict with ents := r.1 } })
          else
            let ctxt := if msgctxt ≠ ['-'] then msgctxt else []
            let r := addCtxtPlural st3.dict.ctxts (String.mk ctxt) msg0
              msgplural msglist2
            .ok (true, { st3 with dict := { st3.dict with ctxts := r.1 } })
        else
          .ok (true, st2)
      else
        .ok (true, st2)

/-- Embeds the comment-skipping loop at the top of each `poparser::parse`
iteration, which also latches the fuzzy flag from `#,` comments. -/
def skipCommentLoop (fuel : Nat) (st : poState) (fuzzy : Bool) :
    Bool × poState :=
  match fuel with
  | 0 => (fuzzy, st)
  | fuel + 1 =>
    if prefixMatchP st ['#'] then
      let fuzzy2 :=
        if st.cur.length ≥ 2 ∧ lineAt st 1 = ',' ∧
            containsFrom st.cur "fuzzy".data 2 then true
        else fuzzy
      let p := nextLine st
      if p.1 then skipCommentLoop fuel p.2 fuzzy2 else (fuzzy2, p.2)
    else
      (fuzzy, st)

/-- Embeds one iteration of the `while (! m_eof)` loop of
`poparser::parse` (the body of the `try` block): skip comments, read the
tags of one entry, dispatch to the entry handlers, and advance to the
next line.  The boolean is false when the final `next_line()` failed
(the `break`). -/
def parseEntry (st : poState) : Except parserError (Bool × poState) :=
  let p0 := skipCommentLoop (st.lines.length + 2) st false
  let fuzzy := p0.1
  let st1 := p0.2
  if ¬ isEmptyLine st1 then
    let step1 : Except parserError (Bool × List Char × Bool × poState) :=
      if prefixMatchP st1 "msgctxt".data then
        match getString st1 7 with
        | .error e => .error e
        | .ok (msgctxt, stA) => .ok (true, msgctxt, true, stA)
      else
        .ok (false, [], false, st1)
    match step1 with
    | .error e => .error e
    | .ok (has_msgctxt, msgctxt, got1, stB) =>
      let step2 : Except parserError (List Char × Bool × poState) :=
        if prefixMatchP stB "msgid".data then
          match getString stB 5 with
          | .error e => .error e
          | .ok (msgid, stC) => .ok (msgid, true, stC)
        else
          .ok ([], got1, stB)
      match step2 with
      | .error e => .error e
      | .ok (msgid, got2, stD) =>
        let msgctxt2 :=
          if has_msgctxt ∧ msgctxt.isEmpty then ['-'] else msgctxt
        let step3 : Except parserError (Bool × poState) :=
          if prefixMatchP stD "msgid_plural".data then
            match getMsgidPlural stD fuzzy msgctxt2 msgid with
            | .error e => .error e
            | .ok (_, stE) => .ok (true, stE)
          else
            .ok (got2, stD)
        match step3 with
        | .error e => .error e
        | .ok (got3, stF) =>
          let step4 : Except parserError (Bool × poState) :=
            if prefixMatchP stF "msgstr".data then
              match getMsgstr stF fuzzy msgctxt2 msgid with
              | .error e => .error e
              | .ok (_, stG) => .ok (true, stG)
            else
              .ok (got3, stF)
          match step4 with
          | .error e => .error e
          | .ok (got4, stH) =>
            if ¬ got4 then
              .error ⟨"Expected a msg tag", stH.lineNo⟩
            else
              let q := nextLine stH
              .ok (q.1, q.2)
  else
    let q := nextLine st1
    .ok (q.1, q.2)

/-- Embeds the `while (! m_eof)` loop of `poparser::parse` with its
`try`/`catch`: a thrown `parser_error` makes the whole parse fail
(result false), a failed `next_line()` ends it successfully. -/
def parseLoop (fuel : Nat) (st : poState) : Bool × poState :=
  match fuel with
  | 0 => (false, st)
  | fuel + 1 =>
    if st.eof then
      (true, st)
    else
      match parseEntry st with
      | .error _ => (false, st)
      | .ok (cont, st2) => if cont then parseLoop fuel st2 else (true, st2)

/-- Embeds `poparser::parse()`: read the first line, strip a UTF-8 BOM,
then run the entry loop. -/
def poParse (st0 : poState) : Bool × poState :=
  let p := nextLine st0
  if ¬ p.1 then
    (false, p.2)
  else
    let st1 := p.2
    let st2 :=
      if st1.cur.take 3 = [Char.ofNat 0xef, Char.ofNat 0xbb, Char.ofNat 0xbf]
      then { st1 with cur := st1.cur.drop 3 }
      else st1
    parseLoop (st2.lines.length + 2) st2

/-- Embeds `poparser::parse_po_file`: parses the given catalog lines
into the given dictionary with the default `usefuzzy = true`. -/
def poParsePo (catalog : List (List Char)) (dic : poDict) : Bool × poState :=
  poParse
    { lines := catalog, cur := [], lineNo := 0, eof := false, big5 := false,
      useFuzzy := true, dict := dic, warns := 0 }

end Potext

namespace Potext

/-! ## Byte-buffer accessor and binary catalog parser
(extractor.cpp, moparser.cpp)

The binary file is embedded as a list of byte values.  `moWordAt` embeds
the struct-overlay read of a 32-bit word on the (little-endian) host;
`moSwap32` embeds `extractor::swap` / `moparser::swap` with the byte-swap
flag set, including the `uint32` truncation of `ui << 24`; `rdWord`
embeds a word read followed by `swap()`.
-/

/-- Byte access into the buffer (reads beyond the end yield 0; all
in-spec accesses are in range). -/
def byteAt (data : List Nat) (i : Nat) : Nat :=
  data.getD i 0

/-- Embeds the native (little-endian host) read of a 32-bit word at
byte position `p`, as performed through the `header` / `offset` struct
overlays. -/
def moWordAt (data : List Nat) (p : Nat) : Nat :=
  byteAt data p + 256 * byteAt data (p + 1) + 65536 * byteAt data (p + 2) +
    16777216 * byteAt data (p + 3)

/-- Embeds the byte-reversal expression of `moparser::swap` (and the
identical `extractor::swap`) on a 32-bit word:
`(ui << 24) | ((ui & 0xff00) << 8) | ((ui >> 8) & 0xff00) | (ui >> 24)`
with `uint32` truncation of the left shift. -/
def moSwap32 (ui : Nat) : Nat :=
  ((ui <<< 24) % 4294967296) ||| ((ui &&& 65280) <<< 8) |||
    ((ui >>> 8) &&& 65280) ||| (ui >>> 24)

/-- A word read followed by `swap(...)`: byte-reversed exactly when the
byte-swap flag is set. -/
def rdWord (sw : Bool) (data : List Nat) (p : Nat) : Nat :=
  if sw then moSwap32 (moWordAt data p) else moWordAt data p

/-- Pattern match at a fixed position, as in the inner loop of
`brute_force` (extractor.cpp). -/
def matchesAt (data : List Nat) : List Nat → Nat → Bool
  | [], _ => true
  | b :: bs, i => byteAt data i == b && matchesAt data bs (i + 1)

/-- Embeds the static `brute_force` search: the first index at which the
whole pattern matches, scanning `0 .. text_length - pattern_length`. -/
def bruteForce (data pat : List Nat) : Option Nat :=
  if pat.length ≤ data.length then
    (List.range (data.length - pat.length + 1)).find?
      (fun i => matchesAt data pat i)
  else
    none

/-- Embeds `extractor::find` / `extractor::find_offset` with the default
start 0: the guard is `valid_offset(start + target.length())`, i.e. the
pattern length must be below the buffer size; `none` embeds the
`SIZE_MAX` sentinel. -/
def findOffsetM (data pat : List Nat) : Option Nat :=
  if pat.length < data.length then bruteForce data pat else none

/-- Embeds `std::string::find(char, start)`: first position at or after
`start` holding the byte. -/
def findCharFrom (data : List Nat) (c : Nat) (start : Nat) : Option Nat :=
  (List.range' start (data.length - start)).find?
    (fun p => byteAt data p == c)

/-- Embeds `extractor::find_character(target, start, len)`: the range
end must be inside the buffer, the unbounded character search runs from
`start`, and a found position is accepted when it does not exceed
`start + len`. -/
def findCharacterM (data : List Nat) (c : Nat) (start len : Nat) :
    Option Nat :=
  let rangelength := start + len
  if rangelength < data.length then
    match findCharFrom data c start with
    | some pos => if pos ≤ rangelength then some pos else none
    | none => none
  else
    none

/-- Embeds `extractor::get(start, len)`: `m_data.substr(start, len)`. -/
def getM (data : List Nat) (start len : Nat) : List Nat :=
  (data.drop start).take len

/-- Embeds `std::string::find_first_of(delims, start)`. -/
def findFirstOfFrom (data : List Nat) (delims : List Nat) (start : Nat) :
    Option Nat :=
  (List.range' start (data.length - start)).find?
    (fun p => delims.contains (byteAt data p))

/-- Embeds `extractor::get_delimited(start, delimiters)`: the bytes from
`start` up to (excluding) the first delimiter, or the empty string when
no delimiter follows. -/
def getDelimitedM (data : List Nat) (start : Nat) (delims : List Nat) :
    List Nat :=
  match findFirstOfFrom data delims start with
  | some pos => getM data start (pos - start)
  | none => []

/-- ASCII byte values of a string. -/
def asciiOf (s : String) : List Nat :=
  s.data.map Char.toNat

/-- Byte values for which `std::isspace` is true in the C locale. -/
def isSpaceByte (b : Nat) : Bool :=
  b = 32 ∨ b = 9 ∨ b = 10 ∨ b = 11 ∨ b = 12 ∨ b = 13

/-- The `Content-Type: text/plain; charset=` marker (34 bytes). -/
def ctMarker : List Nat :=
  asciiOf "Content-Type: text/plain; charset="

/-- The `nplurals=` marker. -/
def npMarker : List Nat :=
  asciiOf "nplurals="

/-- Embeds `moparser::load_charset_name` in the state holding at parse
time (`m_charset_parsed` false, `m_charset` empty; the member is the
`mCharset` argument).  Note the source compares `m_charset` — not the
freshly extracted `cstemp` — against `"CHARSET"`, so with the empty
initial member the placeholder substitution branch is unreachable and
the recorded charset (also handed to `set_charsets`) is `cstemp`
itself. -/
def loadCharsetName (mCharset : List Nat) (data : List Nat) : List Nat :=
  match findOffsetM data ctMarker with
  | some pos =>
    let cstemp := getDelimitedM data (pos + 34) [10]
    if cstemp ≠ [] then
      if mCharset = asciiOf "CHARSET" then asciiOf "UTF-8" else cstemp
    else
      []
  | none => []

/-- Embeds `moparser::load_plural_form_name` at parse time: the line
holding `nplurals=` with whitespace removed, or the default
`nplurals=1;plural=0` when the delimited extraction is empty, or the
empty string when the marker is absent. -/
def loadPluralFormName (data : List Nat) : List Nat :=
  match findOffsetM data npMarker with
  | some pos =>
    let pftemp := getDelimitedM data pos [10]
    if pftemp ≠ [] then
      pftemp.filter (fun c => ! isSpaceByte c)
    else
      asciiOf "nplurals=1;plural=0"
  | none => []

/-- Embeds `moparser::translation`: one catalog entry as extracted by
`load_translations`. -/
structure moTranslation where
  context : List Nat
  original : List Nat
  original_plural : List Nat
  translated : List Nat
  plurals : List (List Nat)
deriving DecidableEq, Repr

/-- Modelled from the spec: `checked_offset` is called by
`moparser::load_translations` but its definition is not among the
provided sources.  Spec section 4.1 specifies the scoped byte search as
returning "not found" as a sentinel, so the check accepts a found
offset lying strictly inside the given bound. -/
def checkedOffset (pos : Option Nat) (maxo : Nat) : Bool :=
  match pos with
  | some p => p < maxo
  | none => false

/-- Embeds the plural-collection loop of `moparser::load_translations`:
NUL-delimited segments are accumulated until the range is exhausted or a
segment is empty.  Each continuing iteration shrinks `tlen` by at least
two, so the fuel `tlen + 1` passed by the caller never runs out. -/
def moPluralLoop (fuel : Nat) (data : List Nat) (toff tlen : Nat)
    (acc : List (List Nat)) : List (List Nat) :=
  match fuel with
  | 0 => acc
  | fuel + 1 =>
    let range_end := toff + tlen
    match findCharacterM data 0 toff tlen with
    | some p =>
      if p < range_end then
        let plural := getM data toff (p - toff)
        if plural = [] then
          acc
        else
          moPluralLoop fuel data (toff + plural.length + 1)
            (tlen - (plural.length + 1)) (acc ++ [plural])
      else
        acc
    | none => acc

/-- Embeds the body of the `load_translations` loop for one entry, after
the four table words (original length/offset, translated length/offset)
have been read and swapped. -/
def moLoadEntry (data : List Nat) (olength0 ooffset0 tlength toffset : Nat) :
    moTranslation :=
  let omax := ooffset0 + olength0
  let eotpos := findCharacterM data 4 ooffset0 olength0
  let hasCtx := checkedOffset eotpos omax
  let eot := eotpos.getD 0
  let ctxt := if hasCtx then getM data ooffset0 (eot - ooffset0) else []
  let ooffset1 := if hasCtx then eot + 1 else ooffset0
  let olength1 := if hasCtx then olength0 - (eot - ooffset0) else olength0
  let nulpos := findCharacterM data 0 ooffset1 olength1
  let splitp :=
    match nulpos with
    | some p => decide (p < ooffset1 + olength1 - 1)
    | none => false
  let np := nulpos.getD 0
  let original :=
    if splitp then getM data ooffset1 (np - ooffset1)
    else getM data ooffset1 olength1
  let original_plural :=
    if splitp then getM data (np + 1) (olength1 - ((np - ooffset1) + 1))
    else []
  let translated := getM data toffset tlength
  let plurals :=
    if translated.length > 0 ∧ translated.length < tlength then
      moPluralLoop (tlength + 1) data (toffset + translated.length + 1)
        (tlength - (translated.length + 1)) []
    else
      []
  ⟨ctxt, original, original_plural, translated, plurals⟩

/-- Embeds `moparser::load_translations`: for each of the `count`
8-byte records of the two descriptor tables, read and swap the length
and offset words (`o_length` first, `o_offset` second) and extract the
entry. -/
def moLoadTranslations (sw : Bool) (data : List Nat)
    (offO offT count : Nat) : List moTranslation :=
  (List.range count).map (fun i =>
    moLoadEntry data
      (rdWord sw data (offO + 8 * i)) (rdWord sw data (offO + 8 * i + 4))
      (rdWord sw data (offT + 8 * i)) (rdWord sw data (offT + 8 * i + 4)))

/-- The header of a parsed catalog (`moparser::header`, after
`swap()`). -/
structure moHeader where
  magic : Nat
  revision : Nat
  string_count : Nat
  offset_original : Nat
  offset_translated : Nat
  size_hash_table : Nat
  offset_hash_table : Nat
deriving DecidableEq, Repr

/-- The observable outcome of `moparser::parse()`: the header fields,
the charset and Plural-Forms metadata strings, the extracted entries,
and the boolean result. -/
structure moResult where
  header : moHeader
  charset : List Nat
  plural_forms : List Nat
  translations : List moTranslation
  ok : Bool
deriving DecidableEq, Repr

/-- `moparser::sm_magic`. -/
def moMagic : Nat := 0x950412de

/-- `moparser::sm_magic_swapped`. -/
def moMagicSwapped : Nat := 0xde120495

/-- Embeds `moparser::parse()`: reject unless the native read of the
first word is the forward or byte-swapped magic; set the byte-swap flag;
read and swap the seven header words; extract the charset (required
non-empty), then the Plural-Forms string (required non-empty), then the
translations. -/
def moParse (data : List Nat) : Option moResult :=
  let magic := moWordAt data 0
  if magic ≠ moMagic ∧ magic ≠ moMagicSwapped then
    none
  else
    let sw := magic == moMagicSwapped
    let hdr : moHeader :=
      ⟨rdWord sw data 0, rdWord sw data 4, rdWord sw data 8,
        rdWord sw data 12, rdWord sw data 16, rdWord sw data 20,
        rdWord sw data 24⟩
    let cs := loadCharsetName [] data
    let res1 := cs ≠ []
    let pf := if res1 then loadPluralFormName data else []
    let res2 := res1 ∧ pf ≠ []
    let trs :=
      if res2 then
        moLoadTranslations sw data hdr.offset_original hdr.offset_translated
          hdr.string_count
      else
        []
    some ⟨hdr, cs, pf, trs, decide res2⟩

/-! ### Canonical serialization of a catalog in either byte order

`buildMo cat false` lays the catalog out with all 32-bit words
little-endian (native, forward magic); `buildMo cat true` stores every
32-bit word in the opposite byte order (so the native read of the magic
yields the byte-swapped constant).  The string areas are byte-identical
in the two variants.
-/

/-- One serialized catalog entry: the original blob (context, EOT,
msgid, NUL, plural msgid as desired) and the translated blob (variants
separated by NUL). -/
structure moEnt where
  oblob : List Nat
  tblob : List Nat
deriving DecidableEq, Repr

/-- A catalog description: revision word and entries. -/
structure moCat where
  revision : Nat
  ents : List moEnt
deriving DecidableEq, Repr

/-- The four bytes of word `w`, least-significant first in the forward
layout, most-significant first in the byte-swapped layout. -/
def wb (sw : Bool) (w : Nat) : List Nat :=
  if sw then [w / 16777216 % 256, w / 65536 % 256, w / 256 % 256, w % 256]
  else [w % 256, w / 256 % 256, w / 65536 % 256, w / 16777216 % 256]

/-- The descriptor-table words for blobs stored consecutively from
`base`, each followed by one NUL terminator: `length, offset` pairs. -/
def tableWords (base : Nat) : List (List Nat) → List Nat
  | [] => []
  | b :: bs => b.length :: base :: tableWords (base + b.length + 1) bs

/-- Length of a string area holding the given blobs, each
NUL-terminated. -/
def areaLen (blobs : List (List Nat)) : Nat :=
  (blobs.map (fun b => b.length + 1)).sum

/-- The string area: the blobs, each followed by a NUL byte. -/
def strArea (blobs : List (List Nat)) : List Nat :=
  (blobs.map (fun b => b ++ [0])).flatten

/-- Offset of the string data in the canonical layout: 28 header bytes
plus two descriptor tables of 8 bytes per entry. -/
def moDataStart (cat : moCat) : Nat :=
  28 + 16 * cat.ents.length

/-- All 32-bit words of the canonical layout, in order: the seven header
words, then the original descriptor table, then the translated
descriptor table. -/
def moWords (cat : moCat) : List Nat :=
  [moMagic, cat.revision, cat.ents.length, 28, 28 + 8 * cat.ents.length, 0, 0]
    ++ tableWords (moDataStart cat) (cat.ents.map (fun e => e.oblob))
    ++ tableWords (moDataStart cat + areaLen (cat.ents.map (fun e => e.oblob)))
        (cat.ents.map (fun e => e.tblob))

/-- The serialized catalog in the chosen byte order. -/
def buildMo (cat : moCat) (sw : Bool) : List Nat :=
  ((moWords cat).map (wb sw)).flatten
    ++ strArea (cat.ents.map (fun e => e.oblob))
    ++ strArea (cat.ents.map (fun e => e.tblob))

/-- Total size of the serialized catalog. -/
def moTotalSize (cat : moCat) : Nat :=
  moDataStart cat + areaLen (cat.ents.map (fun e => e.oblob))
    + areaLen (cat.ents.map (fun e => e.tblob))

/-- Well-formedness for the byte-order theorem: the file fits in the
32-bit offset space. -/
def moWf (cat : moCat) : Prop :=
  cat.revision < 4294967296 ∧ moTotalSize cat < 4294967296

/-- No occurrence of `pat` begins before the string area in either
serialization: the marker searches of the parser then resolve inside
the byte-identical string area. -/
def noEarlyMatch (cat : moCat) (pat : List Nat) : Prop :=
  ∀ p, p < moDataStart cat →
    matchesAt (buildMo cat true) pat p = false ∧
    matchesAt (buildMo cat false) pat p = false

end Potext

namespace Potext

/-! ## Concrete inputs used by the claim theorems -/

/-- A language tag built from explicit parts. -/
def lang (l c m : String) : language :=
  ⟨some ⟨l, c, m⟩⟩

/-- Text catalog whose plural entry lists `msgstr[1]` before
`msgstr[0]`. -/
def cat7 : List (List Char) :=
  [ "msgid \"day\"".data,
    "msgid_plural \"days\"".data,
    "msgstr[1] \"Tage\"".data,
    "msgstr[0] \"Tag\"".data ]

/-- Text catalog whose plural entry skips indices 0 and 1. -/
def cat7b : List (List Char) :=
  [ "msgid \"ox\"".data,
    "msgid_plural \"oxen\"".data,
    "msgstr[2] \"Ochsen\"".data ]

/-- Text catalog whose plural entry has no `msgstr[n]` line at all. -/
def cat7c : List (List Char) :=
  [ "msgid \"a\"".data,
    "msgid_plural \"as\"".data,
    "".data ]

/-- An empty dictionary for the parser theorems. -/
def emptyPoDict : poDict :=
  ⟨[], [], pluralforms.null⟩

/-- A parser state whose current line is `"\?\z"`. -/
def escState : poState :=
  { lines := [], cur := "\"\\?\\z\"".data, lineNo := 7, eof := false,
    big5 := false, useFuzzy := true, dict := emptyPoDict, warns := 0 }

/-- A binary catalog whose header entry declares
`charset=CHARSET`. -/
def charsetBugCat : moCat :=
  ⟨0, [⟨[], asciiOf "Content-Type: text/plain; charset=CHARSET\nPlural-Forms: nplurals=2; plural=(n != 1);\n"⟩]⟩

/-- A small well-formed binary catalog: header entry plus one
context/plural entry. -/
def moWitnessCat : moCat :=
  ⟨0,
    [ ⟨[], asciiOf "Content-Type: text/plain; charset=UTF-8\nPlural-Forms: nplurals=2; plural=(n != 1);\n"⟩,
      ⟨asciiOf "ctx" ++ [4] ++ asciiOf "day" ++ [0] ++ asciiOf "days",
        asciiOf "Tag" ++ [0] ++ asciiOf "Tage"⟩ ]⟩

end Potext

namespace Potext

/-! ## Claim theorems -/

/-- C1: the claim says every plural-rule table entry registers a selector
whose result is a well-defined index strictly below the entry's declared
`form_count`.  The code violates this: the table entry for the
`nplurals=3` Spanish-style rule is registered as `pluralforms(2,
plural3_es)`, and at count 5 the selector evaluates to 2, which is not
below the registered form count 2 (the selector moreover lacks a
`return` statement in the C++ source).  This theorem evaluates the code
at that failing input. -/
theorem C1_selector_exceeds_form_count :
    (from_string "nplurals=3; plural= n==1 ? 0 : n!=0 && n%1000000==0 ? 1 : 2;").map
        (fun pf => (pf.m_nplural, pf.get_plural 5)) = some (2, 2) ∧
    plural3_es 5 = 2 ∧ ¬ (2 : Nat) < 2 := by
  refine ⟨by decide, by decide, by decide⟩

/-- C10: `pluralforms::from_string` is total exactly on inputs holding a
non-whitespace character: there it returns the table entry keyed by the
whitespace-stripped, semicolon-terminated form of the input (the null
`pluralforms` when the key is absent); on an empty or all-whitespace
input the normalization reads `back()` of an empty string (undefined
behavior, embedded as `none`). -/
theorem C10_from_string_totality :
    (∀ s : String, (∃ c ∈ s.data, isCSpace c = false) →
      ∃ key, normalizeSpec s = some key ∧
        from_string s = some ((pluralFormsLookup key).getD pluralforms.null)) ∧
    (∀ s : String, (∀ c ∈ s.data, isCSpace c = true) →
      from_string s = none) ∧
    pluralforms.null.toBool = false := by
  refine ⟨?_, ?_, rfl⟩
  · intro s hs
    obtain ⟨c, hc, hcs⟩ := hs
    have hmem : c ∈ stripSpaces s := by
      unfold stripSpaces
      exact List.mem_filter.mpr ⟨hc, by simp [hcs]⟩
    have hne : stripSpaces s ≠ [] := by
      intro h
      rw [h] at hmem
      exact absurd hmem (List.not_mem_nil c)
    obtain ⟨q, hq⟩ : ∃ q, (stripSpaces s).getLast? = some q := by
      cases hlast : (stripSpaces s).getLast? with
      | none => exact absurd (List.getLast?_eq_none_iff.mp hlast) hne
      | some q => exact ⟨q, rfl⟩
    refine ⟨if q ≠ ';' then stripSpaces s ++ [';'] else stripSpaces s, ?_, ?_⟩
    · simp only [normalizeSpec, hq]
    · simp only [from_string, normalizeSpec, hq]
      cases h : pluralFormsLookup
          (if q ≠ ';' then stripSpaces s ++ [';'] else stripSpaces s) <;>
        simp [h]
  · intro s hs
    have hempty : stripSpaces s = [] := by
      unfold stripSpaces
      rw [List.filter_eq_nil_iff]
      intro c hc
      simp [hs c hc]
    unfold from_string normalizeSpec
    rw [hempty]
    rfl

/-- C10 witness: the totality theorem applied at a concrete rule string
and at a concrete all-whitespace string. -/
theorem C10_witness :
    (∃ key, normalizeSpec "nplurals=1; plural=0;" = some key ∧
      from_string "nplurals=1; plural=0;" =
        some ((pluralFormsLookup key).getD pluralforms.null)) ∧
    from_string " " = none :=
  ⟨C10_from_string_totality.1 "nplurals=1; plural=0;"
      ⟨'n', by decide, by decide⟩,
    C10_from_string_totality.2.1 " " (by decide)⟩

/-- C2 counterexample: the claim allows an overwrite-on-difference only
for context-qualified single-string entries, but a context-qualified
plural add with a differing variant list also logs the collision and
overwrites the stored variants. -/
theorem C2_counterexample :
    (addCtxtPlural [("ctx", [("id", ⟨"p", ["a"]⟩)])] "ctx" "id" "q" ["b"])
      = ([("ctx", [("id", ⟨"p", ["b"]⟩)])], true, true) ∧
    ([("ctx", [("id", entry.mk "p" ["b"])])] : ctxtentries)
      ≠ [("ctx", [("id", entry.mk "p" ["a"])])] := by
  refine ⟨by decide, by decide⟩

/-- C2 amended: flat-index adds (single and plural) reject a duplicate
`message_id`, log the collision and leave the map unchanged; both
context-qualified adds overwrite on a differing value after logging the
collision — the single-string one replaces the first variant, the
plural one replaces the whole variant list (keeping the stored
`msgid_plural`). -/
theorem C2_collision_policy :
    (∀ (m : entries) (msgid msgstr : String),
      (entFind m msgid).isSome →
      addSingle m msgid msgstr = (m, false, true)) ∧
    (∀ (m : entries) (msgid msgid_plural : String) (msgstrs : List String),
      (entFind m msgid).isSome →
      addPlural m msgid msgid_plural msgstrs = (m, false, true)) ∧
    (∀ (m : ctxtentries) (c msgid msgstr : String) (cents : entries)
        (e : entry) (p0 : String) (rest : List String),
      ctxFind m c = some cents → entFind cents msgid = some e →
      e.phrase_list = p0 :: rest → p0 ≠ msgstr →
      addCtxtSingle m c msgid msgstr =
        (ctxSet m c (entSet cents msgid ⟨e.msgid_plural, msgstr :: rest⟩),
          true, true)) ∧
    (∀ (m : ctxtentries) (c msgid mp : String) (msgstrs : List String)
        (cents : entries) (e : entry) (p0 : String) (rest : List String),
      ctxFind m c = some cents → entFind cents msgid = some e →
      e.phrase_list = p0 :: rest → p0 :: rest ≠ msgstrs →
      addCtxtPlural m c msgid mp msgstrs =
        (ctxSet m c (entSet cents msgid ⟨e.msgid_plural, msgstrs⟩),
          true, true)) := by
  refine ⟨?_, ?_, ?_, ?_⟩
  · intro m msgid msgstr h
    unfold addSingle
    obtain ⟨e, he⟩ := Option.isSome_iff_exists.mp h
    rw [he]
  · intro m msgid mp msgstrs h
    unfold addPlural
    obtain ⟨e, he⟩ := Option.isSome_iff_exists.mp h
    rw [he]
  · intro m c msgid msgstr cents e p0 rest hc he hpl hne
    simp only [addCtxtSingle, hc, he, Option.getD_some, hpl]
    simp [hne]
  · intro m c msgid mp msgstrs cents e p0 rest hc he hpl hne
    simp only [addCtxtPlural, hc, he, Option.getD_some, hpl]
    simp [hne]

/-- C2 witness: the amended collision policy applied at concrete maps
for all four add paths. -/
theorem C2_witness :
    addSingle [("k", ⟨"", ["v"]⟩)] "k" "w" = ([("k", ⟨"", ["v"]⟩)], false, true) ∧
    addPlural [("k", ⟨"p", ["v"]⟩)] "k" "q" ["w"]
      = ([("k", ⟨"p", ["v"]⟩)], false, true) ∧
    addCtxtSingle [("c", [("k", ⟨"", ["v"]⟩)])] "c" "k" "w"
      = (ctxSet [("c", [("k", ⟨"", ["v"]⟩)])] "c"
          (entSet [("k", ⟨"", ["v"]⟩)] "k" ⟨"", ["w"]⟩), true, true) ∧
    addCtxtPlural [("c", [("k", ⟨"p", ["v"]⟩)])] "c" "k" "q" ["w", "x"]
      = (ctxSet [("c", [("k", ⟨"p", ["v"]⟩)])] "c"
          (entSet [("k", ⟨"p", ["v"]⟩)] "k" ⟨"p", ["w", "x"]⟩), true, true) := by
  refine ⟨?_, ?_, ?_, ?_⟩
  · exact C2_collision_policy.1 _ "k" "w" (by decide)
  · exact C2_collision_policy.2.1 _ "k" "q" ["w"] (by decide)
  · exact C2_collision_policy.2.2.1 _ "c" "k" "w" _ ⟨"", ["v"]⟩ "v" []
      (by decide) (by decide) rfl (by decide)
  · exact C2_collision_policy.2.2.2 _ "c" "k" "q" ["w", "x"] _ ⟨"p", ["v"]⟩
      "v" [] (by decide) (by decide) rfl (by decide)

/-- C3: `translate` returns the stored first variant on an exact hit
with a non-empty variant list; on a miss it delegates to the fallback
dictionary when one is set and returns `message_id` unchanged when
not. -/
theorem C3_translate :
    (∀ (ents : entries) (cx : ctxtentries) (pf : pluralforms)
        (fb : Option dictionary) (msgid p0 : String) (e : entry),
      entFind ents msgid = some e → e.phrase_list.head? = some p0 →
      (dictionary.mk ents cx pf fb).translate msgid = p0) ∧
    (∀ (ents : entries) (cx : ctxtentries) (pf : pluralforms)
        (f : dictionary) (msgid : String),
      entFind ents msgid = none →
      (dictionary.mk ents cx pf (some f)).translate msgid
        = f.translate msgid) ∧
    (∀ (ents : entries) (cx : ctxtentries) (pf : pluralforms)
        (msgid : String),
      entFind ents msgid = none →
      (dictionary.mk ents cx pf none).translate msgid = msgid) := by
  refine ⟨?_, ?_, ?_⟩
  · intro ents cx pf fb msgid p0 e he hp
    obtain ⟨mp, pl⟩ := e
    cases pl with
    | nil => exact absurd hp (by simp)
    | cons q rest =>
      simp only [List.head?_cons, Option.some.injEq] at hp
      subst hp
      unfold dictionary.translate
      rw [he]
  · intro ents cx pf f msgid he
    exact dictionary.translate.eq_4 msgid ents cx pf f he
  · intro ents cx pf msgid he
    exact dictionary.translate.eq_5 msgid ents cx pf he

/-- C3 witness: the three translate clauses applied at concrete
dictionaries. -/
theorem C3_witness :
    (dictionary.mk [("id", ⟨"", ["hit"]⟩)] [] pluralforms.null none).translate
      "id" = "hit" ∧
    (dictionary.mk [] [] pluralforms.null
        (some (dictionary.mk [("id", ⟨"", ["fb"]⟩)] [] pluralforms.null
          none))).translate "id"
      = (dictionary.mk [("id", ⟨"", ["fb"]⟩)] [] pluralforms.null
          none).translate "id" ∧
    (dictionary.mk [] [] pluralforms.null none).translate "miss" = "miss" := by
  refine ⟨?_, ?_, ?_⟩
  · exact C3_translate.1 _ [] pluralforms.null none "id" "hit" ⟨"", ["hit"]⟩
      (by decide) rfl
  · exact C3_translate.2.1 _ [] pluralforms.null _ "id" (by decide)
  · exact C3_translate.2.2 _ [] pluralforms.null "miss" (by decide)

/-- C4: `translate_plural` on a hit with an out-of-range selector index
logs an error and returns `message_id`; on a hit whose selected variant
is empty it returns `message_id` for count 1 and `message_id_plural`
otherwise; on a miss it applies the same count-1 rule; and its result
never depends on the fallback dictionary. -/
theorem C4_translate_plural :
    (∀ (d : dictionary) (msgid mp : String) (N : Int) (e : entry),
      entFind d.ents msgid = some e →
      d.pf.get_plural N ≥ e.phrase_list.length →
      d.translate_plural msgid mp N = (msgid, true)) ∧
    (∀ (d : dictionary) (msgid mp : String) (N : Int) (e : entry),
      entFind d.ents msgid = some e →
      d.pf.get_plural N < e.phrase_list.length →
      e.phrase_list.getD (d.pf.get_plural N) "" = "" →
      d.translate_plural msgid mp N
        = (if N = 1 then msgid else mp, false)) ∧
    (∀ (d : dictionary) (msgid mp : String) (N : Int),
      entFind d.ents msgid = none →
      d.translate_plural msgid mp N
        = (if N = 1 then msgid else mp, false)) ∧
    (∀ (ents : entries) (cx : ctxtentries) (pf : pluralforms)
        (fb fb2 : Option dictionary) (msgid mp : String) (N : Int),
      (dictionary.mk ents cx pf fb).translate_plural msgid mp N
        = (dictionary.mk ents cx pf fb2).translate_plural msgid mp N) := by
  refine ⟨?_, ?_, ?_, ?_⟩
  · intro d msgid mp N e he hge
    unfold dictionary.translate_plural dictionary.translate_plural_in
    rw [he]
    simp only [ge_iff_le]
    rw [if_pos hge]
  · intro d msgid mp N e he hlt hempty
    unfold dictionary.translate_plural dictionary.translate_plural_in
    rw [he]
    simp only [ge_iff_le]
    rw [if_neg (by omega), if_neg (not_ne_iff.mpr hempty)]
    by_cases h1 : N = 1 <;> simp [h1]
  · intro d msgid mp N he
    unfold dictionary.translate_plural dictionary.translate_plural_in
    rw [he]
    by_cases h1 : N = 1 <;> simp [h1]
  · intro ents cx pf fb fb2 msgid mp N
    rfl

/-- C4 witness: the translate_plural clauses applied at concrete
dictionaries (the germanic two-form selector). -/
theorem C4_witness :
    (dictionary.mk [("f", ⟨"fs", ["x"]⟩)] [] ⟨2, some plural2_1⟩
        none).translate_plural "f" "fs" 2 = ("f", true) ∧
    (dictionary.mk [("f", ⟨"fs", ["x", ""]⟩)] [] ⟨2, some plural2_1⟩
        none).translate_plural "f" "fs" 2 = ("fs", false) ∧
    (dictionary.mk [] [] ⟨2, some plural2_1⟩ none).translate_plural
      "f" "fs" 1 = ("f", false) := by
  refine ⟨?_, ?_, ?_⟩
  · exact C4_translate_plural.1 _ "f" "fs" 2 ⟨"fs", ["x"]⟩ (by decide)
      (by decide)
  · have h := C4_translate_plural.2.1
      (dictionary.mk [("f", ⟨"fs", ["x", ""]⟩)] [] ⟨2, some plural2_1⟩ none)
      "f" "fs" 2 ⟨"fs", ["x", ""]⟩ (by decide) (by decide) (by decide)
    simpa using h
  · have h := C4_translate_plural.2.2.1
      (dictionary.mk [] [] ⟨2, some plural2_1⟩ none) "f" "fs" 1 (by decide)
    simpa using h

/-- C9 counterexample: with equal language codes, an exact country match
with mismatching modifiers scores 5, while a one-side-wildcard country
with exactly matching modifiers scores 7, so an exact country match does
not always outrank an exact modifier match. -/
theorem C9_counterexample :
    language.languageMatch (lang "de" "DE" "x") (lang "de" "DE" "y") = 5 ∧
    language.languageMatch (lang "de" "" "foo") (lang "de" "AT" "foo") = 7 ∧
    ¬ ((5 : Int) > 7) := by
  refine ⟨by decide, by decide, by decide⟩

end Potext

namespace Potext

/-- The country comparison class is symmetric. -/
theorem countryClass_comm (a b : language) :
    language.countryClass a b = language.countryClass b a := by
  unfold language.countryClass
  by_cases h : a.get_country = b.get_country
  · rw [if_pos h, if_pos h.symm]
  · have h2 : ¬ b.get_country = a.get_country := fun e => h e.symm
    rw [if_neg h, if_neg h2]
    by_cases h3 : a.get_country = "" <;> by_cases h4 : b.get_country = "" <;>
      simp [h3, h4]

/-- The modifier comparison class is symmetric. -/
theorem modifierClass_comm (a b : language) :
    language.modifierClass a b = language.modifierClass b a := by
  unfold language.modifierClass
  by_cases h : a.get_modifier = b.get_modifier
  · rw [if_pos h, if_pos h.symm]
  · have h2 : ¬ b.get_modifier = a.get_modifier := fun e => h e.symm
    rw [if_neg h, if_neg h2]
    by_cases h3 : a.get_modifier = "" <;> by_cases h4 : b.get_modifier = "" <;>
      simp [h3, h4]

/-- The country comparison class is at most 2. -/
theorem countryClass_le_two (a b : language) :
    language.countryClass a b ≤ 2 := by
  unfold language.countryClass
  split_ifs <;> omega

/-- The modifier comparison class is at most 2. -/
theorem modifierClass_le_two (a b : language) :
    language.modifierClass a b ≤ 2 := by
  unfold language.modifierClass
  split_ifs <;> omega

/-- C9 amended: `match` is symmetric; it returns 0 exactly when the
language codes differ and otherwise a score between 1 and 9 from the
fixed 3-by-3 table; and a score with exact countries and non-mismatching
modifiers (9 or 8) exceeds every score awarded when the countries do not
compare exactly equal — but the country-exact/modifier-mismatch score
is 5, which is below the 7 awarded to a one-side-wildcard country with
exact modifiers, so an exact country match does not outrank an exact
modifier match in that one configuration. -/
theorem C9_match_scoring :
    (∀ a b : language,
      language.languageMatch a b = language.languageMatch b a) ∧
    (∀ a b : language,
      language.languageMatch a b = 0 ↔ a.get_language ≠ b.get_language) ∧
    (∀ a b : language, a.get_language = b.get_language →
      1 ≤ language.languageMatch a b ∧ language.languageMatch a b ≤ 9) ∧
    (∀ a b a2 b2 : language,
      a.get_language = b.get_language →
      language.countryClass a b = 0 → language.modifierClass a b ≤ 1 →
      a2.get_language = b2.get_language →
      language.countryClass a2 b2 ≠ 0 →
      language.languageMatch a b > language.languageMatch a2 b2) ∧
    (language.languageMatch (lang "de" "DE" "x") (lang "de" "DE" "y") = 5 ∧
      language.languageMatch (lang "de" "" "m") (lang "de" "AT" "m") = 7) := by
  refine ⟨?_, ?_, ?_, ?_, by decide, by decide⟩
  · intro a b
    unfold language.languageMatch
    by_cases h : a.get_language = b.get_language
    · have hne1 : ¬ a.get_language ≠ b.get_language := by simp [h]
      have hne2 : ¬ b.get_language ≠ a.get_language := by simp [h.symm]
      rw [if_neg hne1, if_neg hne2, countryClass_comm a b,
        modifierClass_comm a b]
    · have h2 : ¬ b.get_language = a.get_language := fun e => h e.symm
      simp [h, h2]
  · intro a b
    unfold language.languageMatch
    by_cases h : a.get_language = b.get_language
    · simp only [ne_eq, h, not_true_eq_false, if_false, iff_false,
        Decidable.not_not]
      intro hz
      have hc := countryClass_le_two a b
      have hm := modifierClass_le_two a b
      set c := language.countryClass a b with hcx
      set m := language.modifierClass a b with hmx
      interval_cases c <;> interval_cases m <;>
        exact absurd hz (by decide)
    · simp [h]
  · intro a b h
    unfold language.languageMatch
    simp only [ne_eq, h, not_true_eq_false, if_false]
    have hc := countryClass_le_two a b
    have hm := modifierClass_le_two a b
    set c := language.countryClass a b with hcx
    set m := language.modifierClass a b with hmx
    interval_cases c <;> interval_cases m <;> refine ⟨by decide, by decide⟩
  · intro a b a2 b2 h hc0 hm1 h2 hc2
    unfold language.languageMatch
    simp only [ne_eq, h, h2, not_true_eq_false, if_false]
    rw [hc0]
    have hcb := countryClass_le_two a2 b2
    have hmb := modifierClass_le_two a2 b2
    have hma := modifierClass_le_two a b
    set m := language.modifierClass a b with hmx
    set c2 := language.countryClass a2 b2 with hc2x
    set m2 := language.modifierClass a2 b2 with hm2x
    interval_cases m <;> interval_cases c2 <;> interval_cases m2 <;>
      first
        | exact (hc2 rfl).elim
        | decide

/-- C9 witness: the amended scoring facts applied at concrete tags. -/
theorem C9_witness :
    (language.languageMatch (lang "en" "US" "") (lang "en" "US" "") = 0 ↔
      (lang "en" "US" "").get_language ≠ (lang "en" "US" "").get_language) ∧
    (1 ≤ language.languageMatch (lang "en" "" "") (lang "en" "GB" "") ∧
      language.languageMatch (lang "en" "" "") (lang "en" "GB" "") ≤ 9) ∧
    language.languageMatch (lang "en" "US" "") (lang "en" "US" "")
      > language.languageMatch (lang "en" "" "") (lang "en" "GB" "") := by
  refine ⟨C9_match_scoring.2.1 _ _, C9_match_scoring.2.2.1 _ _ rfl, ?_⟩
  exact C9_match_scoring.2.2.2.1 (lang "en" "US" "") (lang "en" "US" "")
    (lang "en" "" "") (lang "en" "GB" "") rfl (by decide) (by decide) rfl
    (by decide)

end Potext

namespace Potext

set_option maxRecDepth 4000 in
/-- C6: the binary parser locates the charset via the
`Content-Type: text/plain; charset=` marker and takes the value up to
the next line break, but when that value is the placeholder `CHARSET`
the code still records `CHARSET` — not `UTF-8` — because
`load_charset_name` compares the (empty) member `m_charset` instead of
the extracted value against `"CHARSET"`.  This theorem evaluates the
parser on a catalog declaring `charset=CHARSET`. -/
theorem C6_charset_placeholder_kept :
    (moParse (buildMo charsetBugCat false)).map (fun r => r.charset)
      = some (asciiOf "CHARSET") ∧
    loadCharsetName [] (buildMo charsetBugCat false) = asciiOf "CHARSET" ∧
    asciiOf "CHARSET" ≠ asciiOf "UTF-8" := by
  refine ⟨by decide, by decide, by decide⟩

/-- C8 counterexample: on the quoted string `"\?\z"` the parser emits
`?\zz` with a single diagnostic — the `\?` escape is recognized
silently (no diagnostic, one character) and the unrecognized `\z`
appends three characters (backslash, `z`, `z`), not the two the claim
states. -/
theorem C8_counterexample :
    (getStringLine escState [] 0).toOption.map
        (fun p => (p.1, p.2.warns)) = some ("?\\zz".data, 1) ∧
    ("?\\zz".data, (1 : Nat)) ≠ ("\\?\\z".data, 2) := by
  refine ⟨by decide, by decide⟩

/-- C8 amended: the escape switch recognizes `\a \b \v \n \t \r \" \\`
and additionally `\?` and `\'` (each replaced by its bare character,
with no diagnostic); for any other character `c` after a backslash the
parser emits one diagnostic and appends the backslash, `c`, and `c`
again — three characters — without failing the parse. -/
theorem C8_escape_processing :
    (∀ (c : Char) (st : poState), st.big5 = false →
      st.cur = ['"', '\\', c, '"'] → escMap c = none →
      getStringLine st [] 0 = .ok (['\\', c, c], warn st)) ∧
    (escMap 'a' = some '\x07' ∧ escMap 'b' = some '\x08' ∧
      escMap 'v' = some '\x0b' ∧ escMap 'n' = some '\n' ∧
      escMap 't' = some '\t' ∧ escMap 'r' = some '\r' ∧
      escMap '"' = some '"' ∧ escMap '\\' = some '\\' ∧
      escMap '?' = some '?' ∧ escMap '\'' = some '\'') := by
  constructor
  · intro c st hb5 hcur hesc
    obtain ⟨lines, cur, lineNo, eof, big5, uf, dict, warns⟩ := st
    simp only at hb5 hcur
    subst hb5
    subst hcur
    simp [getStringLine, gsLoop, lineAt, trailingGarbage, warn, hesc]
  · refine ⟨rfl, rfl, rfl, rfl, rfl, rfl, rfl, rfl, rfl, rfl⟩

/-- C8 witness: the amended escape-processing rule applied at the
concrete character `z`. -/
theorem C8_witness :
    getStringLine
        { lines := [], cur := ['"', '\\', 'z', '"'], lineNo := 3,
          eof := false, big5 := false, useFuzzy := true,
          dict := emptyPoDict, warns := 0 } [] 0
      = .ok (['\\', 'z', 'z'],
          warn { lines := [], cur := ['"', '\\', 'z', '"'], lineNo := 3,
                 eof := false, big5 := false, useFuzzy := true,
                 dict := emptyPoDict, warns := 0 }) :=
  C8_escape_processing.1 'z' _ rfl rfl rfl

/-- C7 counterexample: a catalog whose plural entry lists `msgstr[1]`
before `msgstr[0]` parses successfully and the entry is committed, so
no positioned catalog-fatal error is raised for out-of-sequence
`msgstr[n]` lines. -/
theorem C7_counterexample :
    (poParsePo cat7 emptyPoDict).1 = true ∧
    (poParsePo cat7 emptyPoDict).2.dict.ents
      = [("day", ⟨"days", ["Tag", "Tage"]⟩)] := by
  refine ⟨by decide, by decide⟩

/-- C7 amended: the text parser accepts `msgstr[n]` lines in any order:
each line stores its string at index `n`, growing the variant list with
empty strings for skipped indices (the general clause), and a catalog
with only `msgstr[2]` commits variants `["", "", …]`; the positioned
catalog-fatal error for this block is raised when no `msgstr[n]` line
precedes the entry-terminating blank line, as in the third catalog. -/
theorem C7_msgstr_sequence_tolerated :
    (∀ (l : List String) (n : Nat) (v : String),
      (msglistResizeSet l n v).getD n "" = v ∧
      (msglistResizeSet l n v).length = max l.length (n + 1)) ∧
    (poParsePo cat7b emptyPoDict).1 = true ∧
    (poParsePo cat7b emptyPoDict).2.dict.ents
      = [("ox", ⟨"oxen", ["", "", "Ochsen"]⟩)] ∧
    (poParsePo cat7c emptyPoDict).1 = false := by
  refine ⟨?_, by decide, by decide, by decide⟩
  intro l n v
  constructor
  · unfold msglistResizeSet
    by_cases h : n ≥ l.length
    · rw [if_pos h]
      have hlen : n < (l ++ List.replicate (n + 1 - l.length) "").length := by
        simp
        omega
      rw [List.getD_eq_getElem?_getD, List.getElem?_set_self hlen]
      rfl
    · rw [if_neg h]
      have hlen : n < l.length := by omega
      rw [List.getD_eq_getElem?_getD, List.getElem?_set_self hlen]
      rfl
  · unfold msglistResizeSet
    by_cases h : n ≥ l.length <;> simp [h] <;> omega

end Potext

namespace Potext

/-- Bitmask identity used by the byte-swap proof:
`x &&& 0xff00` extracts the second byte in place. -/
theorem land_ff00 (x : Nat) : x &&& 65280 = x / 256 % 256 * 256 := by
  apply Nat.eq_of_testBit_eq
  intro i
  rw [Nat.testBit_and]
  have hr : x / 256 % 256 * 256 = (x >>> 8 % 2 ^ 8) <<< 8 := by
    rw [Nat.shiftLeft_eq, Nat.shiftRight_eq_div_pow]
    norm_num
  rw [hr, Nat.testBit_shiftLeft, Nat.testBit_mod_two_pow, Nat.testBit_shiftRight]
  rcases Nat.lt_or_ge i 8 with h8 | h8
  · have hm : Nat.testBit 65280 i = false := by interval_cases i <;> decide
    simp [hm, show ¬ (8 ≤ i) by omega]
  · rcases Nat.lt_or_ge i 16 with h16 | h16
    · have hm : Nat.testBit 65280 i = true := by interval_cases i <;> decide
      have hi : 8 + (i - 8) = i := by omega
      simp [hm, h8, hi, show i - 8 < 8 by omega]
    · have hm : Nat.testBit 65280 i = false := by
        apply Nat.testBit_lt_two_pow
        calc (65280 : Nat) < 2 ^ 16 := by norm_num
          _ ≤ 2 ^ i := Nat.pow_le_pow_right (by norm_num) h16
      simp [hm, show ¬ (i - 8 < 8) by omega]

/-- `moSwap32` really reverses the four bytes of a 32-bit word. -/
theorem moSwap32_rev (w : Nat) (hw : w < 4294967296) :
    moSwap32 (w / 16777216 % 256 + 256 * (w / 65536 % 256) +
      65536 * (w / 256 % 256) + 16777216 * (w % 256)) = w := by
  unfold moSwap32
  set a := w % 256 with ha
  set b := w / 256 % 256 with hb
  set c := w / 65536 % 256 with hc
  set d := w / 16777216 % 256 with hd
  have ha2 : a < 256 := by omega
  have hb2 : b < 256 := by omega
  have hc2 : c < 256 := by omega
  have hd2 : d < 256 := by omega
  have hdecomp : w = a + 256 * b + 65536 * c + 16777216 * d := by omega
  set x := d + 256 * c + 65536 * b + 16777216 * a with hx
  have hx256 : x = d + (c + 256 * b + 65536 * a) * 256 := by rw [hx]; ring
  have hxdiv : x / 256 = c + 256 * b + 65536 * a := by
    rw [hx256, Nat.add_mul_div_right _ _ (by norm_num : (0:Nat) < 256),
      Nat.div_eq_of_lt hd2, Nat.zero_add]
  have hgen1 : ∀ a2 b2 c2 : Nat, c2 < 256 →
      (c2 + 256 * b2 + 65536 * a2) % 256 = c2 := by
    intro a2 b2 c2 h2
    omega
  have hgen2 : ∀ a2 b2 c2 : Nat, c2 < 256 → b2 < 256 →
      (c2 + 256 * b2 + 65536 * a2) / 256 % 256 = b2 := by
    intro a2 b2 c2 h2 h3
    omega
  have t1 : (x <<< 24) % 4294967296 = 16777216 * d := by
    rw [Nat.shiftLeft_eq]
    have h1 : x * 2 ^ 24 = d * 16777216 + (c + 256 * b + 65536 * a) * 4294967296 := by
      rw [hx]; ring
    rw [h1, Nat.add_mul_mod_self_right, Nat.mod_eq_of_lt (by omega)]
    ring
  have t2 : (x &&& 65280) <<< 8 = 65536 * c := by
    rw [land_ff00, Nat.shiftLeft_eq]
    have h1 : x / 256 % 256 = c := by rw [hxdiv]; exact hgen1 a b c hc2
    rw [h1]
    ring
  have t3 : (x >>> 8) &&& 65280 = 256 * b := by
    rw [Nat.shiftRight_eq_div_pow, land_ff00]
    have h0 : x / 2 ^ 8 = c + 256 * b + 65536 * a := by
      rw [show (2:Nat) ^ 8 = 256 by norm_num, hxdiv]
    rw [h0]
    rw [hgen2 a b c hc2 hb2]
    ring
  have t4 : x >>> 24 = a := by
    rw [Nat.shiftRight_eq_div_pow]
    have h1 : x = (d + 256 * c + 65536 * b) + 2 ^ 24 * a := by rw [hx]; ring
    rw [h1, Nat.add_mul_div_left _ _ (by norm_num : (0:Nat) < 2 ^ 24),
      Nat.div_eq_of_lt (by omega), Nat.zero_add]
  rw [t1, t2, t3, t4]
  have s1 : (16777216 * d : Nat) ||| 65536 * c = 16777216 * d + 65536 * c := by
    have h := Nat.mul_add_lt_is_or (show 65536 * c < 2 ^ 24 by omega) d
    calc (16777216 * d : Nat) ||| 65536 * c
        = 2 ^ 24 * d ||| 65536 * c := by norm_num
      _ = 2 ^ 24 * d + 65536 * c := h.symm
      _ = 16777216 * d + 65536 * c := by norm_num
  have s2 : (16777216 * d + 65536 * c : Nat) ||| 256 * b
      = 16777216 * d + 65536 * c + 256 * b := by
    have h := Nat.mul_add_lt_is_or (show 256 * b < 2 ^ 16 by omega) (256 * d + c)
    calc (16777216 * d + 65536 * c : Nat) ||| 256 * b
        = 2 ^ 16 * (256 * d + c) ||| 256 * b := by
          rw [show (16777216 * d + 65536 * c : Nat) = 2 ^ 16 * (256 * d + c) by ring]
      _ = 2 ^ 16 * (256 * d + c) + 256 * b := h.symm
      _ = 16777216 * d + 65536 * c + 256 * b := by ring
  have s3 : (16777216 * d + 65536 * c + 256 * b : Nat) ||| a
      = 16777216 * d + 65536 * c + 256 * b + a := by
    have h := Nat.mul_add_lt_is_or (show a < 2 ^ 8 by omega)
      (65536 * d + 256 * c + b)
    calc (16777216 * d + 65536 * c + 256 * b : Nat) ||| a
        = 2 ^ 8 * (65536 * d + 256 * c + b) ||| a := by
          rw [show (16777216 * d + 65536 * c + 256 * b : Nat)
            = 2 ^ 8 * (65536 * d + 256 * c + b) by ring]
      _ = 2 ^ 8 * (65536 * d + 256 * c + b) + a := h.symm
      _ = 16777216 * d + 65536 * c + 256 * b + a := by ring
  rw [s1, s2, s3]
  omega

/-- Every serialized word occupies four bytes. -/
theorem wb_length (sw : Bool) (w : Nat) : (wb sw w).length = 4 := by
  cases sw <;> simp [wb]

/-- The word block of the serialization is four bytes per word. -/
theorem flat_length (ws : List Nat) (sw : Bool) :
    ((ws.map (wb sw)).flatten).length = 4 * ws.length := by
  induction ws with
  | nil => simp
  | cons w ws ih =>
    simp only [List.map_cons, List.flatten_cons, List.length_append, ih,
      wb_length, List.length_cons]
    ring

/-- Reading the first serialized word (with the matching swap flag)
recovers it. -/
theorem rd_head (sw : Bool) (w : Nat) (rest : List Nat)
    (hw : w < 4294967296) : rdWord sw (wb sw w ++ rest) 0 = w := by
  cases sw with
  | false =>
    show moWordAt (wb false w ++ rest) 0 = w
    simp only [moWordAt, byteAt, wb, Bool.false_eq_true, if_false]
    simp only [List.cons_append, List.getD_cons_zero, List.getD_cons_succ]
    omega
  | true =>
    show moSwap32 (moWordAt (wb true w ++ rest) 0) = w
    simp only [moWordAt, byteAt, wb, if_true]
    simp only [List.cons_append, List.getD_cons_zero, List.getD_cons_succ]
    exact moSwap32_rev w hw

/-- Word reads skip a four-byte block. -/
theorem moWordAt_shift (l rest : List Nat) (p : Nat) (hl : l.length = 4) :
    moWordAt (l ++ rest) (4 + p) = moWordAt rest p := by
  unfold moWordAt byteAt
  rw [List.getD_append_right _ _ _ _ (by omega), List.getD_append_right _ _ _ _ (by omega),
    List.getD_append_right _ _ _ _ (by omega), List.getD_append_right _ _ _ _ (by omega)]
  rw [hl]
  rw [show 4 + p - 4 = p by omega, show 4 + p + 1 - 4 = p + 1 by omega,
    show 4 + p + 2 - 4 = p + 2 by omega, show 4 + p + 3 - 4 = p + 3 by omega]

/-- Swapped word reads skip a four-byte block. -/
theorem rdWord_shift (sw : Bool) (l rest : List Nat) (p : Nat)
    (hl : l.length = 4) :
    rdWord sw (l ++ rest) (4 + p) = rdWord sw rest p := by
  unfold rdWord
  rw [moWordAt_shift l rest p hl]

/-- Reading the `i`-th word of the serialized word block (with the
matching swap flag) yields the `i`-th source word. -/
theorem rd_flat (ws : List Nat) (sw : Bool) (tail : List Nat) (i : Nat)
    (hi : i < ws.length) (hb : ∀ w ∈ ws, w < 4294967296) :
    rdWord sw ((ws.map (wb sw)).flatten ++ tail) (4 * i) = ws.getD i 0 := by
  induction ws generalizing i with
  | nil => simp at hi
  | cons w ws ih =>
    simp only [List.map_cons, List.flatten_cons, List.append_assoc]
    cases i with
    | zero =>
      simp only [Nat.mul_zero, List.getD_cons_zero]
      exact rd_head sw w _ (hb w (List.mem_cons_self w ws))
    | succ i =>
      have h4 : 4 * (i + 1) = 4 + 4 * i := by ring
      rw [h4, rdWord_shift sw _ _ _ (wb_length sw w)]
      simp only [List.getD_cons_succ]
      exact ih i (by simp at hi; omega) (fun v hv => hb v (List.mem_cons_of_mem w hv))

end Potext

namespace Potext

/-- The descriptor table has two words per blob. -/
theorem tableWords_length (base : Nat) (bs : List (List Nat)) :
    (tableWords base bs).length = 2 * bs.length := by
  induction bs generalizing base with
  | nil => simp [tableWords]
  | cons b bs ih => simp [tableWords, ih]; ring

/-- The string area is as long as `areaLen` says. -/
theorem strArea_length (bs : List (List Nat)) :
    (strArea bs).length = areaLen bs := by
  induction bs with
  | nil => simp [strArea, areaLen]
  | cons b bs ih =>
    simp only [strArea, areaLen, List.map_cons, List.flatten_cons,
      List.length_append, List.length_cons, List.sum_cons] at *
    simp [ih]

/-- The serialized catalog has `7 + 4·N` words. -/
theorem moWords_length (cat : moCat) :
    (moWords cat).length = 7 + 4 * cat.ents.length := by
  simp only [moWords, List.length_append, tableWords_length,
    List.length_map, List.length_cons, List.length_nil]
  ring

/-- The serialized catalog's word block ends exactly at the string
area. -/
theorem buildMo_split (cat : moCat) (sw : Bool) :
    buildMo cat sw = ((moWords cat).map (wb sw)).flatten
      ++ (strArea (cat.ents.map (fun e => e.oblob))
          ++ strArea (cat.ents.map (fun e => e.tblob))) := by
  simp [buildMo]

/-- The word block occupies the first `moDataStart` bytes. -/
theorem flat_length_eq_dataStart (cat : moCat) (sw : Bool) :
    (((moWords cat).map (wb sw)).flatten).length = moDataStart cat := by
  rw [flat_length, moWords_length, moDataStart]
  ring

/-- Both serializations have the same total length. -/
theorem buildMo_length (cat : moCat) (sw : Bool) :
    (buildMo cat sw).length = moTotalSize cat := by
  rw [buildMo_split, List.length_append, List.length_append,
    flat_length_eq_dataStart, strArea_length, strArea_length,
    moTotalSize, moDataStart]
  ring

/-- Beyond the word block the two serializations agree byte for byte. -/
theorem buildMo_suffix_agree (cat : moCat) (q : Nat)
    (hq : moDataStart cat ≤ q) :
    byteAt (buildMo cat true) q = byteAt (buildMo cat false) q := by
  unfold byteAt
  rw [buildMo_split cat true, buildMo_split cat false]
  rw [List.getD_append_right (((moWords cat).map (wb true)).flatten) _ _ _
      (by rw [flat_length_eq_dataStart]; omega),
    List.getD_append_right (((moWords cat).map (wb false)).flatten) _ _ _
      (by rw [flat_length_eq_dataStart]; omega),
    flat_length_eq_dataStart, flat_length_eq_dataStart]

/-- Values in a descriptor table are bounded by the end of its string
area. -/
theorem tableWords_bound (base : Nat) (bs : List (List Nat)) :
    ∀ v ∈ tableWords base bs, v ≤ base + areaLen bs := by
  induction bs generalizing base with
  | nil => simp [tableWords]
  | cons b bs ih =>
    intro v hv
    simp only [tableWords, List.mem_cons] at hv
    rcases hv with h | h | h
    · subst h
      simp only [areaLen, List.map_cons, List.sum_cons]
      omega
    · subst h
      simp only [areaLen, List.map_cons, List.sum_cons]
      omega
    · have := ih (base + b.length + 1) v h
      simp only [areaLen, List.map_cons, List.sum_cons] at *
      omega

/-- Every serialized word of a well-formed catalog fits in 32 bits. -/
theorem moWords_bound (cat : moCat) (hwf : moWf cat) :
    ∀ w ∈ moWords cat, w < 4294967296 := by
  obtain ⟨hrev, hsz⟩ := hwf
  simp only [moTotalSize, moDataStart] at hsz
  intro w hw
  rcases List.mem_append.mp hw with hw1 | hw2
  · rcases List.mem_append.mp hw1 with hhd | hot
    · fin_cases hhd <;> first | decide | exact hrev | omega
    · have := tableWords_bound (moDataStart cat)
        (cat.ents.map (fun e => e.oblob)) w hot
      simp only [moDataStart] at this
      omega
  · have := tableWords_bound
      (moDataStart cat + areaLen (cat.ents.map (fun e => e.oblob)))
      (cat.ents.map (fun e => e.tblob)) w hw2
    simp only [moDataStart] at this
    omega

end Potext

namespace Potext

/-- `find?` only depends on the predicate's values on the list. -/
theorem find?_congr {α : Type} (l : List α) (f g : α → Bool)
    (h : ∀ x ∈ l, f x = g x) : l.find? f = l.find? g := by
  induction l with
  | nil => rfl
  | cons a l ih =>
    simp only [List.find?_cons]
    rw [h a (List.mem_cons_self a l)]
    cases g a
    · exact ih (fun x hx => h x (List.mem_cons_of_mem a hx))
    · rfl

/-- A pattern match at or past the agreement bound is the same in two
byte-wise agreeing buffers. -/
theorem matchesAt_agree (d1 d2 : List Nat) (k : Nat)
    (hag : ∀ q, k ≤ q → byteAt d1 q = byteAt d2 q) (pat : List Nat) :
    ∀ i, k ≤ i → matchesAt d1 pat i = matchesAt d2 pat i := by
  induction pat with
  | nil => intro i _; rfl
  | cons b bs ih =>
    intro i hi
    simp only [matchesAt]
    rw [hag i hi, ih (i + 1) (by omega)]

/-- Two buffers of equal length agreeing past `k`, in which no pattern
occurrence begins before `k`, give the same `find`/`find_offset`
result. -/
theorem findOffsetM_agree (d1 d2 : List Nat) (k : Nat) (pat : List Nat)
    (hlen : d1.length = d2.length)
    (hag : ∀ q, k ≤ q → byteAt d1 q = byteAt d2 q)
    (hnem : ∀ p, p < k → matchesAt d1 pat p = false ∧
      matchesAt d2 pat p = false) :
    findOffsetM d1 pat = findOffsetM d2 pat := by
  unfold findOffsetM bruteForce
  rw [hlen]
  by_cases hc : pat.length < d2.length
  · rw [if_pos hc, if_pos hc]
    by_cases hc2 : pat.length ≤ d2.length
    · rw [if_pos hc2, if_pos hc2]
      apply find?_congr
      intro x _
      by_cases hx : x < k
      · rw [(hnem x hx).1, (hnem x hx).2]
      · exact matchesAt_agree d1 d2 k hag pat x (by omega)
    · rw [if_neg hc2, if_neg hc2]
  · rw [if_neg hc, if_neg hc]

/-- A found offset satisfies the match predicate. -/
theorem findOffsetM_found (d pat : List Nat) (p : Nat)
    (h : findOffsetM d pat = some p) : matchesAt d pat p = true := by
  unfold findOffsetM bruteForce at h
  by_cases hc : pat.length < d.length
  · rw [if_pos hc] at h
    by_cases hc2 : pat.length ≤ d.length
    · rw [if_pos hc2] at h
      exact List.find?_some h
    · rw [if_neg hc2] at h
      exact absurd h (by simp)
  · rw [if_neg hc] at h
    exact absurd h (by simp)

/-- The character search only looks at or past its start position. -/
theorem findCharFrom_agree (d1 d2 : List Nat) (k : Nat) (c : Nat)
    (start : Nat) (hlen : d1.length = d2.length)
    (hag : ∀ q, k ≤ q → byteAt d1 q = byteAt d2 q) (hs : k ≤ start) :
    findCharFrom d1 c start = findCharFrom d2 c start := by
  unfold findCharFrom
  rw [hlen]
  apply find?_congr
  intro x hx
  have hge : start ≤ x := (List.mem_range'_1.mp hx).1
  rw [hag x (by omega)]

/-- A found character position is at or past the start. -/
theorem findCharFrom_ge (d : List Nat) (c start p : Nat)
    (h : findCharFrom d c start = some p) : start ≤ p := by
  unfold findCharFrom at h
  have hmem := List.mem_of_find?_eq_some h
  exact (List.mem_range'_1.mp hmem).1

/-- `find_character` agreement past the bound. -/
theorem findCharacterM_agree (d1 d2 : List Nat) (k : Nat) (c : Nat)
    (start len : Nat) (hlen : d1.length = d2.length)
    (hag : ∀ q, k ≤ q → byteAt d1 q = byteAt d2 q) (hs : k ≤ start) :
    findCharacterM d1 c start len = findCharacterM d2 c start len := by
  unfold findCharacterM
  rw [hlen, findCharFrom_agree d1 d2 k c start hlen hag hs]

/-- A `find_character` result is at or past the start. -/
theorem findCharacterM_ge (d : List Nat) (c start len p : Nat)
    (h : findCharacterM d c start len = some p) : start ≤ p := by
  unfold findCharacterM at h
  by_cases hr : start + len < d.length
  · rw [if_pos hr] at h
    cases hf : findCharFrom d c start with
    | none => rw [hf] at h; exact absurd h (by simp)
    | some q =>
      rw [hf] at h
      dsimp only at h
      by_cases hq : q ≤ start + len
      · rw [if_pos hq] at h
        cases h
        exact findCharFrom_ge d c start p hf
      · rw [if_neg hq] at h
        exact absurd h (by simp)
  · rw [if_neg hr] at h
    exact absurd h (by simp)

/-- Optional-element agreement past the bound. -/
theorem getElem?_agree (d1 d2 : List Nat) (k : Nat)
    (hlen : d1.length = d2.length)
    (hag : ∀ q, k ≤ q → byteAt d1 q = byteAt d2 q) (q : Nat) (hq : k ≤ q) :
    d1[q]? = d2[q]? := by
  by_cases h : q < d1.length
  · rw [List.getElem?_eq_getElem h, List.getElem?_eq_getElem (by omega)]
    have := hag q hq
    unfold byteAt at this
    rw [List.getD_eq_getElem _ _ h, List.getD_eq_getElem _ _ (by omega)] at this
    rw [this]
  · rw [List.getElem?_eq_none (by omega), List.getElem?_eq_none (by omega)]

/-- `get` (substr) agreement past the bound. -/
theorem getM_agree (d1 d2 : List Nat) (k : Nat) (start len : Nat)
    (hlen : d1.length = d2.length)
    (hag : ∀ q, k ≤ q → byteAt d1 q = byteAt d2 q) (hs : k ≤ start) :
    getM d1 start len = getM d2 start len := by
  unfold getM
  have hdrop : d1.drop start = d2.drop start := by
    apply List.ext_getElem?
    intro n
    rw [List.getElem?_drop, List.getElem?_drop]
    exact getElem?_agree d1 d2 k hlen hag (start + n) (by omega)
  rw [hdrop]

/-- `find_first_of` agreement past the bound. -/
theorem findFirstOfFrom_agree (d1 d2 : List Nat) (k : Nat)
    (delims : List Nat) (start : Nat) (hlen : d1.length = d2.length)
    (hag : ∀ q, k ≤ q → byteAt d1 q = byteAt d2 q) (hs : k ≤ start) :
    findFirstOfFrom d1 delims start = findFirstOfFrom d2 delims start := by
  unfold findFirstOfFrom
  rw [hlen]
  apply find?_congr
  intro x hx
  have hge : start ≤ x := (List.mem_range'_1.mp hx).1
  rw [hag x (by omega)]

/-- A `find_first_of` result is at or past the start. -/
theorem findFirstOfFrom_ge (d : List Nat) (delims : List Nat)
    (start p : Nat) (h : findFirstOfFrom d delims start = some p) :
    start ≤ p := by
  unfold findFirstOfFrom at h
  have hmem := List.mem_of_find?_eq_some h
  exact (List.mem_range'_1.mp hmem).1

/-- `get_delimited` agreement past the bound. -/
theorem getDelimitedM_agree (d1 d2 : List Nat) (k : Nat) (start : Nat)
    (delims : List Nat) (hlen : d1.length = d2.length)
    (hag : ∀ q, k ≤ q → byteAt d1 q = byteAt d2 q) (hs : k ≤ start) :
    getDelimitedM d1 start delims = getDelimitedM d2 start delims := by
  unfold getDelimitedM
  rw [findFirstOfFrom_agree d1 d2 k delims start hlen hag hs]
  cases hf : findFirstOfFrom d2 delims start with
  | none => rfl
  | some pos =>
    exact getM_agree d1 d2 k start (pos - start) hlen hag hs

end Potext

namespace Potext

/-- The charset extraction agrees on two buffers of equal length that
agree past `k` when no marker occurrence begins before `k`. -/
theorem loadCharsetName_agree (d1 d2 : List Nat) (k : Nat)
    (hlen : d1.length = d2.length)
    (hag : ∀ q, k ≤ q → byteAt d1 q = byteAt d2 q)
    (hnem : ∀ p, p < k → matchesAt d1 ctMarker p = false ∧
      matchesAt d2 ctMarker p = false) :
    loadCharsetName [] d1 = loadCharsetName [] d2 := by
  unfold loadCharsetName
  rw [findOffsetM_agree d1 d2 k ctMarker hlen hag hnem]
  cases hf : findOffsetM d2 ctMarker with
  | none => rfl
  | some pos =>
    have hmatch := findOffsetM_found d2 ctMarker pos hf
    have hpos : k ≤ pos := by
      by_contra hc
      have := (hnem pos (by omega)).2
      rw [this] at hmatch
      exact absurd hmatch (by simp)
    dsimp only
    rw [getDelimitedM_agree d1 d2 k (pos + 34) [10] hlen hag (by omega)]

/-- The Plural-Forms extraction agrees likewise. -/
theorem loadPluralFormName_agree (d1 d2 : List Nat) (k : Nat)
    (hlen : d1.length = d2.length)
    (hag : ∀ q, k ≤ q → byteAt d1 q = byteAt d2 q)
    (hnem : ∀ p, p < k → matchesAt d1 npMarker p = false ∧
      matchesAt d2 npMarker p = false) :
    loadPluralFormName d1 = loadPluralFormName d2 := by
  unfold loadPluralFormName
  rw [findOffsetM_agree d1 d2 k npMarker hlen hag hnem]
  cases hf : findOffsetM d2 npMarker with
  | none => rfl
  | some pos =>
    have hmatch := findOffsetM_found d2 npMarker pos hf
    have hpos : k ≤ pos := by
      by_contra hc
      have := (hnem pos (by omega)).2
      rw [this] at hmatch
      exact absurd hmatch (by simp)
    dsimp only
    rw [getDelimitedM_agree d1 d2 k pos [10] hlen hag hpos]

/-- The plural-variant collection loop agrees past the bound. -/
theorem moPluralLoop_agree (d1 d2 : List Nat) (k : Nat)
    (hlen : d1.length = d2.length)
    (hag : ∀ q, k ≤ q → byteAt d1 q = byteAt d2 q) :
    ∀ (fuel toff tlen : Nat) (acc : List (List Nat)), k ≤ toff →
      moPluralLoop fuel d1 toff tlen acc
        = moPluralLoop fuel d2 toff tlen acc := by
  intro fuel
  induction fuel with
  | zero => intro toff tlen acc _; rfl
  | succ fuel ih =>
    intro toff tlen acc htoff
    unfold moPluralLoop
    rw [findCharacterM_agree d1 d2 k 0 toff tlen hlen hag htoff]
    cases hf : findCharacterM d2 0 toff tlen with
    | none => rfl
    | some p =>
      dsimp only
      by_cases hp : p < toff + tlen
      · rw [if_pos hp, if_pos hp,
          getM_agree d1 d2 k toff (p - toff) hlen hag htoff]
        by_cases hz : getM d2 toff (p - toff) = []
        · rw [if_pos hz, if_pos hz]
        · rw [if_neg hz, if_neg hz]
          exact ih _ _ _ (by omega)
      · rw [if_neg hp, if_neg hp]

/-- One translation entry is extracted identically from two buffers
agreeing past `k` when its offsets lie past `k`. -/
theorem moLoadEntry_agree (d1 d2 : List Nat) (k : Nat)
    (olen ooff tlen toff : Nat) (hlen : d1.length = d2.length)
    (hag : ∀ q, k ≤ q → byteAt d1 q = byteAt d2 q)
    (hoff : k ≤ ooff) (htoff : k ≤ toff) :
    moLoadEntry d1 olen ooff tlen toff
      = moLoadEntry d2 olen ooff tlen toff := by
  simp only [moLoadEntry]
  rw [findCharacterM_agree d1 d2 k 4 ooff olen hlen hag hoff]
  have htr := getM_agree d1 d2 k toff tlen hlen hag htoff
  cases hF : findCharacterM d2 4 ooff olen with
  | none =>
    simp only [checkedOffset, Bool.false_eq_true, if_false]
    rw [findCharacterM_agree d1 d2 k 0 ooff olen hlen hag hoff]
    cases hNP : findCharacterM d2 0 ooff olen with
    | none =>
      simp only [Bool.false_eq_true, if_false]
      rw [getM_agree d1 d2 k ooff olen hlen hag hoff, htr,
        moPluralLoop_agree d1 d2 k hlen hag _ _ _ _ (by omega)]
    | some np =>
      have hnpk : ooff ≤ np := findCharacterM_ge d2 0 ooff olen np hNP
      simp only [Option.getD_some]
      rw [getM_agree d1 d2 k ooff (np - ooff) hlen hag hoff,
        getM_agree d1 d2 k ooff olen hlen hag hoff,
        getM_agree d1 d2 k (np + 1) (olen - (np - ooff + 1)) hlen hag
          (by omega),
        htr, moPluralLoop_agree d1 d2 k hlen hag _ _ _ _ (by omega)]
  | some e =>
    have hek : ooff ≤ e := findCharacterM_ge d2 4 ooff olen e hF
    simp only [checkedOffset, Option.getD_some]
    by_cases hC : e < ooff + olen
    · simp only [hC, decide_True, eq_self_iff_true, if_true]
      rw [findCharacterM_agree d1 d2 k 0 (e + 1) (olen - (e - ooff)) hlen hag
        (by omega)]
      rw [getM_agree d1 d2 k ooff (e - ooff) hlen hag hoff]
      cases hNP : findCharacterM d2 0 (e + 1) (olen - (e - ooff)) with
      | none =>
        simp only [Bool.false_eq_true, if_false]
        rw [getM_agree d1 d2 k (e + 1) (olen - (e - ooff)) hlen hag
          (by omega), htr,
          moPluralLoop_agree d1 d2 k hlen hag _ _ _ _ (by omega)]
      | some np =>
        have hnpk : e + 1 ≤ np :=
          findCharacterM_ge d2 0 (e + 1) (olen - (e - ooff)) np hNP
        simp only [Option.getD_some]
        rw [getM_agree d1 d2 k (e + 1) (np - (e + 1)) hlen hag (by omega),
          getM_agree d1 d2 k (e + 1) (olen - (e - ooff)) hlen hag (by omega),
          getM_agree d1 d2 k (np + 1) (olen - (e - ooff) - (np - (e + 1) + 1))
            hlen hag (by omega),
          htr, moPluralLoop_agree d1 d2 k hlen hag _ _ _ _ (by omega)]
    · simp only [hC, decide_False, Bool.false_eq_true, if_false]
      rw [findCharacterM_agree d1 d2 k 0 ooff olen hlen hag hoff]
      cases hNP : findCharacterM d2 0 ooff olen with
      | none =>
        simp only [Bool.false_eq_true, if_false]
        rw [getM_agree d1 d2 k ooff olen hlen hag hoff, htr,
          moPluralLoop_agree d1 d2 k hlen hag _ _ _ _ (by omega)]
      | some np =>
        have hnpk : ooff ≤ np := findCharacterM_ge d2 0 ooff olen np hNP
        simp only [Option.getD_some]
        rw [getM_agree d1 d2 k ooff (np - ooff) hlen hag hoff,
          getM_agree d1 d2 k ooff olen hlen hag hoff,
          getM_agree d1 d2 k (np + 1) (olen - (np - ooff + 1)) hlen hag
            (by omega),
          htr, moPluralLoop_agree d1 d2 k hlen hag _ _ _ _ (by omega)]

end Potext

namespace Potext

/-- Word reads from the serialized catalog recover the source words. -/
theorem buildMo_rd (cat : moCat) (sw : Bool) (hwf : moWf cat) (i : Nat)
    (hi : i < (moWords cat).length) :
    rdWord sw (buildMo cat sw) (4 * i) = (moWords cat).getD i 0 := by
  rw [buildMo_split]
  exact rd_flat (moWords cat) sw _ i hi (moWords_bound cat hwf)

/-- `moWords` starts with the magic constant. -/
theorem moWords_cons (cat : moCat) :
    moWords cat = moMagic ::
      (([cat.revision, cat.ents.length, 28, 28 + 8 * cat.ents.length, 0, 0]
          ++ tableWords (moDataStart cat) (cat.ents.map (fun e => e.oblob)))
        ++ tableWords (moDataStart cat
            + areaLen (cat.ents.map (fun e => e.oblob)))
          (cat.ents.map (fun e => e.tblob))) := by
  simp [moWords, List.cons_append]

/-- Reading the first four bytes as a little-endian word. -/
theorem moWordAt_cons4 (a b c d : Nat) (rest : List Nat) :
    moWordAt (a :: b :: c :: d :: rest) 0
      = a + 256 * b + 65536 * c + 16777216 * d := by
  simp [moWordAt, byteAt]

/-- The native read of the magic word: the byte-swapped constant in the
swapped serialization, the forward constant otherwise. -/
theorem buildMo_magic (cat : moCat) (sw : Bool) :
    moWordAt (buildMo cat sw) 0
      = if sw then moMagicSwapped else moMagic := by
  rw [buildMo_split, moWords_cons]
  simp only [List.map_cons, List.flatten_cons, List.append_assoc]
  cases sw with
  | false =>
    rw [show wb false moMagic = [222, 18, 4, 149] from by decide]
    simp only [List.cons_append]
    rw [moWordAt_cons4]
    decide
  | true =>
    rw [show wb true moMagic = [149, 4, 18, 222] from by decide]
    simp only [List.cons_append]
    rw [moWordAt_cons4]
    decide

/-- The seven header words of the serialization. -/
theorem moWords_getD_hdr (cat : moCat) :
    (moWords cat).getD 0 0 = moMagic ∧
    (moWords cat).getD 1 0 = cat.revision ∧
    (moWords cat).getD 2 0 = cat.ents.length ∧
    (moWords cat).getD 3 0 = 28 ∧
    (moWords cat).getD 4 0 = 28 + 8 * cat.ents.length ∧
    (moWords cat).getD 5 0 = 0 ∧
    (moWords cat).getD 6 0 = 0 := by
  refine ⟨?_, ?_, ?_, ?_, ?_, ?_, ?_⟩ <;>
    simp [moWords, List.cons_append, List.getD_cons_zero, List.getD_cons_succ]

/-- The descriptor-table words: even positions hold the blob lengths,
odd positions the cumulative offsets. -/
theorem tableWords_getD (bs : List (List Nat)) :
    ∀ (base j : Nat), j < bs.length →
      (tableWords base bs).getD (2 * j) 0 = (bs.getD j []).length ∧
      (tableWords base bs).getD (2 * j + 1) 0
        = base + areaLen (bs.take j) := by
  induction bs with
  | nil => intro base j hj; simp at hj
  | cons b bs ih =>
    intro base j hj
    cases j with
    | zero =>
      simp [tableWords, areaLen]
    | succ j =>
      have h1 : 2 * (j + 1) = 2 * j + 1 + 1 := by ring
      rw [h1]
      simp only [tableWords, List.getD_cons_succ, List.getD_cons_zero]
      have := ih (base + b.length + 1) j (by simp at hj; omega)
      refine ⟨this.1, ?_⟩
      rw [this.2]
      simp only [List.take_succ_cons, areaLen, List.map_cons, List.sum_cons]
      omega

/-- The original-table words inside `moWords`. -/
theorem moWords_getD_orig (cat : moCat) (j : Nat)
    (hj : j < 2 * cat.ents.length) :
    (moWords cat).getD (7 + j) 0
      = (tableWords (moDataStart cat)
          (cat.ents.map (fun e => e.oblob))).getD j 0 := by
  unfold moWords
  rw [List.getD_append _ _ _ _ (by
    simp only [List.length_append, tableWords_length, List.length_map,
      List.length_cons, List.length_nil]
    omega)]
  rw [List.getD_append_right _ _ _ _ (by simp)]
  simp

/-- The translated-table words inside `moWords`. -/
theorem moWords_getD_tran (cat : moCat) (j : Nat) :
    (moWords cat).getD (7 + 2 * cat.ents.length + j) 0
      = (tableWords (moDataStart cat
            + areaLen (cat.ents.map (fun e => e.oblob)))
          (cat.ents.map (fun e => e.tblob))).getD j 0 := by
  unfold moWords
  rw [List.getD_append_right _ _ _ _ (by
    simp only [List.length_append, tableWords_length, List.length_map,
      List.length_cons, List.length_nil]
    omega)]
  congr 1
  simp only [List.length_append, tableWords_length, List.length_map,
    List.length_cons, List.length_nil]
  omega

end Potext

namespace Potext

/-- The translation tables are extracted identically from the two
serializations: each descriptor word recovered by the (swapped or
plain) read is the same catalog value, and the entry offsets lie in the
byte-identical string area. -/
theorem moLoadTranslations_agree (cat : moCat) (hwf : moWf cat) :
    moLoadTranslations true (buildMo cat true) 28
        (28 + 8 * cat.ents.length) cat.ents.length
      = moLoadTranslations false (buildMo cat false) 28
        (28 + 8 * cat.ents.length) cat.ents.length := by
  unfold moLoadTranslations
  apply List.map_congr_left
  intro i hi
  have hN : i < cat.ents.length := List.mem_range.mp hi
  have hag : ∀ q, moDataStart cat ≤ q →
      byteAt (buildMo cat true) q = byteAt (buildMo cat false) q :=
    buildMo_suffix_agree cat
  have hw1 : ∀ sw, rdWord sw (buildMo cat sw) (28 + 8 * i)
      = ((cat.ents.map (fun e => e.oblob)).getD i []).length := by
    intro sw
    rw [show 28 + 8 * i = 4 * (7 + 2 * i) from by ring,
      buildMo_rd cat sw hwf (7 + 2 * i) (by rw [moWords_length]; omega),
      moWords_getD_orig cat (2 * i) (by omega)]
    exact (tableWords_getD (cat.ents.map (fun e => e.oblob))
      (moDataStart cat) i (by simpa using hN)).1
  have hw2 : ∀ sw, rdWord sw (buildMo cat sw) (28 + 8 * i + 4)
      = moDataStart cat
        + areaLen ((cat.ents.map (fun e => e.oblob)).take i) := by
    intro sw
    rw [show 28 + 8 * i + 4 = 4 * (7 + (2 * i + 1)) from by ring,
      buildMo_rd cat sw hwf (7 + (2 * i + 1)) (by rw [moWords_length]; omega),
      moWords_getD_orig cat (2 * i + 1) (by omega)]
    exact (tableWords_getD (cat.ents.map (fun e => e.oblob))
      (moDataStart cat) i (by simpa using hN)).2
  have hw3 : ∀ sw, rdWord sw (buildMo cat sw)
        (28 + 8 * cat.ents.length + 8 * i)
      = ((cat.ents.map (fun e => e.tblob)).getD i []).length := by
    intro sw
    rw [show 28 + 8 * cat.ents.length + 8 * i
        = 4 * (7 + 2 * cat.ents.length + 2 * i) from by ring,
      buildMo_rd cat sw hwf (7 + 2 * cat.ents.length + 2 * i)
        (by rw [moWords_length]; omega),
      moWords_getD_tran cat (2 * i)]
    exact (tableWords_getD (cat.ents.map (fun e => e.tblob))
      (moDataStart cat + areaLen (cat.ents.map (fun e => e.oblob))) i
      (by simpa using hN)).1
  have hw4 : ∀ sw, rdWord sw (buildMo cat sw)
        (28 + 8 * cat.ents.length + 8 * i + 4)
      = moDataStart cat + areaLen (cat.ents.map (fun e => e.oblob))
        + areaLen ((cat.ents.map (fun e => e.tblob)).take i) := by
    intro sw
    rw [show 28 + 8 * cat.ents.length + 8 * i + 4
        = 4 * (7 + 2 * cat.ents.length + (2 * i + 1)) from by ring,
      buildMo_rd cat sw hwf (7 + 2 * cat.ents.length + (2 * i + 1))
        (by rw [moWords_length]; omega),
      moWords_getD_tran cat (2 * i + 1)]
    exact (tableWords_getD (cat.ents.map (fun e => e.tblob))
      (moDataStart cat + areaLen (cat.ents.map (fun e => e.oblob))) i
      (by simpa using hN)).2
  rw [hw1 true, hw1 false, hw2 true, hw2 false, hw3 true, hw3 false,
    hw4 true, hw4 false]
  exact moLoadEntry_agree (buildMo cat true) (buildMo cat false)
    (moDataStart cat) _ _ _ _ (by rw [buildMo_length, buildMo_length]) hag
    (Nat.le_add_right _ _) (by omega)

end Potext

namespace Potext

/-- Evaluating the parser on the canonical serialization in either byte
order: the magic check passes, the byte-swap flag matches the layout,
the seven header words are recovered (the stored magic is the forward
constant after swapping), and the metadata and translations are read
from the buffer. -/
theorem moParse_build (cat : moCat) (sw : Bool) (hwf : moWf cat) :
    moParse (buildMo cat sw) = some
      ⟨⟨moMagic, cat.revision, cat.ents.length, 28,
          28 + 8 * cat.ents.length, 0, 0⟩,
        loadCharsetName [] (buildMo cat sw),
        (if loadCharsetName [] (buildMo cat sw) ≠ [] then
            loadPluralFormName (buildMo cat sw) else []),
        (if loadCharsetName [] (buildMo cat sw) ≠ [] ∧
            (if loadCharsetName [] (buildMo cat sw) ≠ [] then
              loadPluralFormName (buildMo cat sw) else []) ≠ [] then
            moLoadTranslations sw (buildMo cat sw) 28
              (28 + 8 * cat.ents.length) cat.ents.length
          else []),
        decide (loadCharsetName [] (buildMo cat sw) ≠ [] ∧
          (if loadCharsetName [] (buildMo cat sw) ≠ [] then
            loadPluralFormName (buildMo cat sw) else []) ≠ [])⟩ := by
  have h0 : rdWord sw (buildMo cat sw) 0 = (moWords cat).getD 0 0 :=
    buildMo_rd cat sw hwf 0 (by rw [moWords_length]; omega)
  have h1 : rdWord sw (buildMo cat sw) 4 = (moWords cat).getD 1 0 :=
    buildMo_rd cat sw hwf 1 (by rw [moWords_length]; omega)
  have h2 : rdWord sw (buildMo cat sw) 8 = (moWords cat).getD 2 0 :=
    buildMo_rd cat sw hwf 2 (by rw [moWords_length]; omega)
  have h3 : rdWord sw (buildMo cat sw) 12 = (moWords cat).getD 3 0 :=
    buildMo_rd cat sw hwf 3 (by rw [moWords_length]; omega)
  have h4 : rdWord sw (buildMo cat sw) 16 = (moWords cat).getD 4 0 :=
    buildMo_rd cat sw hwf 4 (by rw [moWords_length]; omega)
  have h5 : rdWord sw (buildMo cat sw) 20 = (moWords cat).getD 5 0 :=
    buildMo_rd cat sw hwf 5 (by rw [moWords_length]; omega)
  have h6 : rdWord sw (buildMo cat sw) 24 = (moWords cat).getD 6 0 :=
    buildMo_rd cat sw hwf 6 (by rw [moWords_length]; omega)
  obtain ⟨g0, g1, g2, g3, g4, g5, g6⟩ := moWords_getD_hdr cat
  cases sw with
  | false =>
    have hm : moWordAt (buildMo cat false) 0 = moMagic := by
      simpa using buildMo_magic cat false
    unfold moParse
    rw [hm]
    dsimp only
    rw [if_neg (by decide)]
    rw [show (moMagic == moMagicSwapped) = false from by decide]
    rw [h0, h1, h2, h3, h4, h5, h6, g0, g1, g2, g3, g4, g5, g6]
  | true =>
    have hm : moWordAt (buildMo cat true) 0 = moMagicSwapped := by
      simpa using buildMo_magic cat true
    unfold moParse
    rw [hm]
    dsimp only
    rw [if_neg (by decide)]
    rw [show (moMagicSwapped == moMagicSwapped) = true from by decide]
    rw [h0, h1, h2, h3, h4, h5, h6, g0, g1, g2, g3, g4, g5, g6]

end Potext

namespace Potext

/-- C5: for every well-formed binary catalog (the serialized file fits
the 32-bit offset space and the metadata-marker searches resolve inside
the byte-identical string area), parsing the variant whose words are
stored in the opposite byte order — so the native read of the magic
yields the byte-swapped constant 0xde120495 — produces exactly the same
header, charset, Plural-Forms string, entries and result flag as
parsing the forward-order variant with magic 0x950412de. -/
theorem C5_swapped_parse_eq (cat : moCat) (hwf : moWf cat)
    (hct : noEarlyMatch cat ctMarker) (hnp : noEarlyMatch cat npMarker) :
    moParse (buildMo cat true) = moParse (buildMo cat false) := by
  have hlen : (buildMo cat true).length = (buildMo cat false).length := by
    rw [buildMo_length, buildMo_length]
  have hag : ∀ q, moDataStart cat ≤ q →
      byteAt (buildMo cat true) q = byteAt (buildMo cat false) q :=
    buildMo_suffix_agree cat
  have hcs := loadCharsetName_agree (buildMo cat true) (buildMo cat false)
    (moDataStart cat) hlen hag hct
  have hpf := loadPluralFormName_agree (buildMo cat true) (buildMo cat false)
    (moDataStart cat) hlen hag hnp
  rw [moParse_build cat true hwf, moParse_build cat false hwf, hcs, hpf,
    moLoadTranslations_agree cat hwf]

/-- The byte-order equivalence evaluated on a concrete catalog: a
header entry plus one context/plural entry. -/
theorem C5_witness :
    moParse (buildMo moWitnessCat true)
      = moParse (buildMo moWitnessCat false) :=
  C5_swapped_parse_eq moWitnessCat
    (by unfold moWf; decide)
    (by unfold noEarlyMatch; decide)
    (by unfold noEarlyMatch; decide)

end Potext
